import Mathlib

set_option maxHeartbeats 1000000

/-- JSON values as produced by parsing an input document: null, booleans,
numbers (modelled as integers), strings, arrays, and objects whose string keys
are kept in insertion order, as in a Python dict. -/
inductive Json where
  | null : Json
  | bool (b : Bool) : Json
  | num (n : Int) : Json
  | str (s : String) : Json
  | arr (elems : List Json) : Json
  | obj (fields : List (String × Json)) : Json

/-- Python truthiness of a JSON value. -/
def Json.truthy : Json → Bool
  | .null => false
  | .bool b => b
  | .num n => n != 0
  | .str s => s != ""
  | .arr xs => !xs.isEmpty
  | .obj kvs => !kvs.isEmpty

/-- Value bound to a key in an association list modelling a Python dict. -/
def lookupField : List (String × Json) → String → Option Json
  | [], _ => none
  | (k, v) :: rest, key => if k = key then some v else lookupField rest key

/-- Python dict.get with a default: succeeds only on an object, and models the
AttributeError raised on every other value as an error. -/
def pyGetD (j : Json) (key : String) (dflt : Json) : Except Unit Json :=
  match j with
  | .obj kvs => .ok ((lookupField kvs key).getD dflt)
  | _ => .error ()

/-- Whether a JSON value is exactly the given string; Python equality between a
string and a non-string value is always false. -/
def Json.isStrEq (j : Json) (s : String) : Bool :=
  match j with
  | .str t => t == s
  | _ => false

/-- Whether the first character list is a leading segment of the second. -/
def listStarts : List Char → List Char → Bool
  | [], _ => true
  | _ :: _, [] => false
  | c :: cs, d :: ds => c == d && listStarts cs ds

/-- Whether the needle occurs contiguously inside the haystack. -/
def strIncludes (needle : List Char) : List Char → Bool
  | [] => needle.isEmpty
  | d :: ds => listStarts needle (d :: ds) || strIncludes needle ds

/-- The Python membership test with a string on the left: key lookup in a dict,
element membership in a list, substring test in a string, and a TypeError
(modelled as an error) on numbers, booleans and null. -/
def pyContains (needle : String) : Json → Except Unit Bool
  | .obj kvs => .ok (kvs.any (fun kv => kv.1 == needle))
  | .arr xs => .ok (xs.any (fun x => x.isStrEq needle))
  | .str s => .ok (strIncludes needle.toList s.toList)
  | _ => .error ()

/-- Python iteration over a JSON value: the elements of a list, the one-char
strings of a string, the keys of a dict; a TypeError otherwise. -/
def pyIter : Json → Except Unit (List Json)
  | .arr xs => .ok xs
  | .str s => .ok (s.toList.map (fun c => .str (String.singleton c)))
  | .obj kvs => .ok (kvs.map (fun kv => .str kv.1))
  | _ => .error ()

/-- Python len of a JSON value; a TypeError on numbers, booleans and null. -/
def pyLen : Json → Except Unit Nat
  | .arr xs => .ok xs.length
  | .str s => .ok s.length
  | .obj kvs => .ok kvs.length
  | _ => .error ()

/-- Python addition of one to a JSON value: defined on numbers and on booleans
(True behaves as 1), a TypeError otherwise. -/
def pyAdd1 : Json → Except Unit Json
  | .num n => .ok (.num (n + 1))
  | .bool b => .ok (.num (if b then 2 else 1))
  | _ => .error ()

/-- Whether a character counts as whitespace for the Python strip method. -/
def pyWs (c : Char) : Bool :=
  c == ' ' || c == '\t' || c == '\n' || c == '\r' || c == '\x0b' || c == '\x0c'

/-- Removal of leading whitespace from a character list. -/
def dropWs : List Char → List Char
  | [] => []
  | c :: cs => if pyWs c then dropWs cs else c :: cs

/-- The Python strip method on a string: whitespace removed from both ends. -/
def pyTrim (s : String) : String :=
  ⟨(dropWs (dropWs s.data.reverse).reverse)⟩

/-- The strip method: defined only on strings, an AttributeError otherwise. -/
def pyStrip : Json → Except Unit String
  | .str s => .ok (pyTrim s)
  | _ => .error ()

/-- Python join with a single-space separator: a TypeError unless every part
is a string. -/
def pyJoin : List Json → Except Unit String
  | [] => .ok ""
  | [p] =>
    match p with
    | .str s => .ok s
    | _ => .error ()
  | p :: rest =>
    match p with
    | .str s => do
      let r ← pyJoin rest
      .ok (s ++ " " ++ r)
    | _ => .error ()

/-- Python equality test against the integer 1; True == 1 holds in Python. -/
def pyEqOne : Json → Bool
  | .num n => n == 1
  | .bool b => b
  | _ => false

/-- One emitted layout block. The page, bbox and type fields carry whatever
JSON value the code stored there; the text field is always a string. -/
structure Block where
  page : Json
  bbox : Json
  text : String
  type : Json

/-- Span contents of one line in the pdf_info shape: every truthy content
value of a dict span, in order. -/
def spanContents (spans : List Json) : List Json :=
  spans.foldl (fun acc span =>
    match span with
    | .obj kvs =>
      let c := (lookupField kvs "content").getD (.str "")
      if c.truthy then acc ++ [c] else acc
    | _ => acc) []

/-- Text parts collected from the lines of a pdf_info para block. -/
def lineParts : List Json → Except Unit (List Json)
  | [] => .ok []
  | line :: rest =>
    match line with
    | .obj kvs => do
      let spans ← pyIter ((lookupField kvs "spans").getD (.arr []))
      let more ← lineParts rest
      .ok (spanContents spans ++ more)
    | _ => lineParts rest

/-- One para block of the pdf_info shape. -/
def f1Block (pageNo : Json) (block : Json) : Except Unit (Option Block) := do
  let btype ← pyGetD block "type" (.str "")
  if btype.isStrEq "text" || btype.isStrEq "title" then
    let bbox ← pyGetD block "bbox" (.arr [])
    if bbox.truthy then do
      let n ← pyLen bbox
      if n < 4 then .ok none
      else do
        let lines ← pyIter (← pyGetD block "lines" (.arr []))
        let parts ← lineParts lines
        let joined ← pyJoin parts
        let text := pyTrim joined
        if text = "" then .ok none
        else .ok (some { page := pageNo, bbox := bbox, text := text, type := btype })
    else .ok none
  else .ok none

/-- All para blocks of one pdf_info page. -/
def f1Blocks (pageNo : Json) : List Json → Except Unit (List Block)
  | [] => .ok []
  | b :: rest => do
    let ob ← f1Block pageNo b
    let more ← f1Blocks pageNo rest
    match ob with
    | some blk => .ok (blk :: more)
    | none => .ok more

/-- One page of the pdf_info shape. -/
def f1Page (pageData : Json) : Except Unit (List Block) := do
  let pidx ← pyGetD pageData "page_idx" (.num 0)
  let pageNo ← pyAdd1 pidx
  let paraBlocks ← pyGetD pageData "para_blocks" (.arr [])
  if !paraBlocks.truthy then .ok []
  else do
    let _ ← pyLen paraBlocks
    let bs ← pyIter paraBlocks
    f1Blocks pageNo bs

/-- All pages of the pdf_info shape. -/
def f1Pages : List Json → Except Unit (List Block)
  | [] => .ok []
  | p :: rest => do
    let here ← f1Page p
    let more ← f1Pages rest
    .ok (here ++ more)

/-- The pdf_info branch of the normalizer. -/
def parsePdfInfo (d : Json) : Except Unit (List Block) := do
  let pdfInfo ← pyGetD d "pdf_info" (.arr [])
  let _ ← pyLen pdfInfo
  let ps ← pyIter pdfInfo
  f1Pages ps

/-- One item of the content_list shape. -/
def f2Item (item : Json) : Except Unit (Option Block) := do
  let textJ ← pyGetD item "text" (.str "")
  let text ← pyStrip textJ
  if text = "" then .ok none
  else do
    let bbox ← pyGetD item "bbox" (.arr [])
    if !bbox.truthy then .ok none
    else do
      let n ← pyLen bbox
      if n < 4 then .ok none
      else do
        let pidx ← pyGetD item "page_idx" (.num 0)
        let pageNo ← pyAdd1 pidx
        let t0 ← pyGetD item "type" (.str "text")
        let tl ← pyGetD item "text_level" .null
        let btype := if pyEqOne tl then Json.str "title" else t0
        .ok (some { page := pageNo, bbox := bbox, text := text, type := btype })

/-- All items of the content_list shape. -/
def f2Items : List Json → Except Unit (List Block)
  | [] => .ok []
  | b :: rest => do
    let ob ← f2Item b
    let more ← f2Items rest
    match ob with
    | some blk => .ok (blk :: more)
    | none => .ok more

/-- One block of the model shape; non-dict blocks are skipped. -/
def f3Block (pageNo : Nat) (block : Json) : Except Unit (Option Block) :=
  match block with
  | .obj kvs => do
    let content ← pyStrip ((lookupField kvs "content").getD (.str ""))
    if content = "" then .ok none
    else
      let bbox := (lookupField kvs "bbox").getD (.arr [])
      if !bbox.truthy then .ok none
      else do
        let n ← pyLen bbox
        if n < 4 then .ok none
        else
          let btype := (lookupField kvs "type").getD (.str "text")
          .ok (some { page := .num (Int.ofNat pageNo), bbox := bbox,
                      text := content, type := btype })
  | _ => .ok none

/-- All blocks of one model-shape page. -/
def f3Blocks (pageNo : Nat) : List Json → Except Unit (List Block)
  | [] => .ok []
  | b :: rest => do
    let ob ← f3Block pageNo b
    let more ← f3Blocks pageNo rest
    match ob with
    | some blk => .ok (blk :: more)
    | none => .ok more

/-- All pages of the model shape; the index is the 0-based enumeration index
and non-list pages are skipped. -/
def f3Pages : List Json → Nat → Except Unit (List Block)
  | [], _ => .ok []
  | p :: rest, idx => do
    let here ← match p with
      | .arr blocks => f3Blocks (idx + 1) blocks
      | _ => .ok []
    let more ← f3Pages rest (idx + 1)
    .ok (here ++ more)

/-- Per-line text of the legacy pages shape: the text field if truthy, else
the content field; skipped when the result is falsy or the line is not a dict. -/
def f4LineText (line : Json) : Option Json :=
  match line with
  | .obj kvs =>
    let t := (lookupField kvs "text").getD (.str "")
    let lt := if t.truthy then t else (lookupField kvs "content").getD (.str "")
    if lt.truthy then some lt else none
  | _ => none

/-- Page number of a legacy page: the first truthy value among the fields
page_no, page and pageNo, else the page_idx field (default 0) plus one. -/
def resolvePageNo (page : Json) : Except Unit Json := do
  let a ← pyGetD page "page_no" .null
  if a.truthy then .ok a
  else do
    let b ← pyGetD page "page" .null
    if b.truthy then .ok b
    else do
      let c ← pyGetD page "pageNo" .null
      if c.truthy then .ok c
      else do
        let d ← pyGetD page "page_idx" (.num 0)
        pyAdd1 d

/-- Bbox of a legacy block: the first truthy value among the fields bbox and
bbox_coords, else the zero rectangle. -/
def resolveBbox (block : Json) : Except Unit Json := do
  let a ← pyGetD block "bbox" .null
  if a.truthy then .ok a
  else do
    let b ← pyGetD block "bbox_coords" .null
    if b.truthy then .ok b
    else .ok (.arr [.num 0, .num 0, .num 0, .num 0])

/-- One block of the legacy pages shape. -/
def f4Block (pageNo : Json) (block : Json) : Except Unit (Option Block) := do
  let btype ← pyGetD block "type" (.str "")
  if btype.isStrEq "text" || btype.isStrEq "title" then
    let lines ← pyGetD block "lines" (.arr [])
    if !lines.truthy then .ok none
    else do
      let ls ← pyIter lines
      let parts := ls.foldl (fun acc l =>
        match f4LineText l with
        | some t => acc ++ [t]
        | none => acc) []
      let joined ← pyJoin parts
      let text := pyTrim joined
      if text = "" then .ok none
      else do
        let bbox ← resolveBbox block
        .ok (some { page := pageNo, bbox := bbox, text := text, type := btype })
  else .ok none

/-- All blocks of one legacy page. -/
def f4Blocks (pageNo : Json) : List Json → Except Unit (List Block)
  | [] => .ok []
  | b :: rest => do
    let ob ← f4Block pageNo b
    let more ← f4Blocks pageNo rest
    match ob with
    | some blk => .ok (blk :: more)
    | none => .ok more

/-- One page of the legacy pages shape. -/
def f4Page (page : Json) : Except Unit (List Block) := do
  let pageNo ← resolvePageNo page
  let blocks ← pyGetD page "blocks" (.arr [])
  if !blocks.truthy then .ok []
  else do
    let _ ← pyLen blocks
    let bs ← pyIter blocks
    f4Blocks pageNo bs

/-- All pages of the legacy pages shape. -/
def f4Pages : List Json → Except Unit (List Block)
  | [] => .ok []
  | p :: rest => do
    let here ← f4Page p
    let more ← f4Pages rest
    .ok (here ++ more)

/-- The legacy pages branch of the normalizer. -/
def parsePages (d : Json) : Except Unit (List Block) := do
  let pages ← pyGetD d "pages" (.arr [])
  if !pages.truthy then .ok []
  else do
    let _ ← pyLen pages
    let ps ← pyIter pages
    f4Pages ps

/-- The flat-item discriminator: an object containing both a text key and a
page_idx key. -/
def isFlatItem : Json → Bool
  | .obj kvs => kvs.any (fun kv => kv.1 == "text") && kvs.any (fun kv => kv.1 == "page_idx")
  | _ => false

/-- Shape dispatch of the normalizer, with errors propagated. -/
def parseCore (d : Json) : Except Unit (List Block) := do
  if !d.truthy then .ok []
  else do
    let hasPdf ← pyContains "pdf_info" d
    if hasPdf then parsePdfInfo d
    else
      match d with
      | .arr (first :: rest) =>
        if isFlatItem first then f2Items (first :: rest)
        else
          match first with
          | .arr _ => f3Pages (first :: rest) 0
          | _ => parsePages d
      | _ => parsePages d

/-- The layout normalizer: runs the shape dispatch and returns the empty list
when any exception is raised, mirroring the catch-all handler in the source. -/
def parse_mineru_layout_from_data (d : Json) : List Block :=
  match parseCore d with
  | .ok l => l
  | .error _ => []

/-- Modelled from the claim wording, for comparison with the code: the page
number of a legacy page resolved by first-present-wins among the fields
page_no, page and pageNo, else the page_idx field (default 0) plus one. -/
def specPresentPageNo (page : Json) : Except Unit Json :=
  match page with
  | .obj kvs =>
    match lookupField kvs "page_no" with
    | some v => .ok v
    | none =>
      match lookupField kvs "page" with
      | some v => .ok v
      | none =>
        match lookupField kvs "pageNo" with
        | some v => .ok v
        | none => pyAdd1 ((lookupField kvs "page_idx").getD (.num 0))
  | _ => .error ()

/-- Modelled from the claim wording, for comparison with the code: the bbox of
a legacy block resolved by first-present-wins among the fields bbox and
bbox_coords, else the zero rectangle. -/
def specPresentBbox (block : Json) : Except Unit Json :=
  match block with
  | .obj kvs =>
    match lookupField kvs "bbox" with
    | some v => .ok v
    | none =>
      match lookupField kvs "bbox_coords" with
      | some v => .ok v
      | none => .ok (.arr [.num 0, .num 0, .num 0, .num 0])
  | _ => .error ()

/-- One block of a client-supplied layout, restricted to the two fields the
batch translation loop reads and writes. -/
structure TBlock where
  text : String
  translated_text : Option String
deriving DecidableEq

/-- Python truthiness of an optional translated_text value: an absent field
and the empty string are both falsy. -/
def truthyOpt : Option String → Bool
  | none => false
  | some s => s != ""

/-- Counters threaded through the batch loop of the translate-layout route. -/
structure TLState where
  translated : Nat
  skipped : Nat
  failed : Nat
  first_error : Option String
deriving DecidableEq

/-- One iteration of the batch loop over one block: skip blocks with empty
stripped text, skip already-translated blocks unless forced, otherwise call
the translator; on failure count it, record the first message, and fall back
to the stripped original text when no truthy translation exists. -/
def tlStep (tr : String → Except String String) (force : Bool)
    (b : TBlock) (st : TLState) : TBlock × TLState :=
  let text := pyTrim b.text
  if text == "" then (b, st)
  else if !force && truthyOpt b.translated_text then
    (b, { st with skipped := st.skipped + 1 })
  else
    match tr text with
    | .ok t =>
      ({ b with translated_text := some t },
       { st with translated := st.translated + 1 })
    | .error e =>
      let st2 := { st with failed := st.failed + 1,
                           first_error := if st.failed = 0 then some e else st.first_error }
      (if truthyOpt b.translated_text then b
       else { b with translated_text := some text }, st2)

/-- The batch loop over all blocks, in order. -/
def tlRun (tr : String → Except String String) (force : Bool) :
    List TBlock → TLState → List TBlock × TLState
  | [], st => ([], st)
  | b :: rest, st =>
    let p := tlStep tr force b st
    let q := tlRun tr force rest p.2
    (p.1 :: q.1, q.2)

/-- Result data of the translate-layout route. -/
structure TLResult where
  layout : List TBlock
  translated_count : Nat
  skipped_count : Nat
  failed_count : Nat
  total_count : Nat
  first_error : Option String
deriving DecidableEq

/-- The batch translation of the translate-layout route: iterates the layout
in order with the given per-text translation call, which either returns a
translation or raises an error message. -/
def translate_layout (tr : String → Except String String) (force : Bool)
    (layout : List TBlock) : TLResult :=
  let r := tlRun tr force layout ⟨0, 0, 0, none⟩
  { layout := r.1, translated_count := r.2.translated,
    skipped_count := r.2.skipped, failed_count := r.2.failed,
    total_count := layout.length, first_error := r.2.first_error }

/-- Configuration values read by the translator, each already resolved the way
config.get resolves them; a missing credential is the empty string. -/
structure TConfig where
  qwen_api_key : String
  qwen_base_url : String
  qwen_model : String
  openai_api_key : String
  openai_base_url : String
  default_model : String

/-- The translation cache: entries of key, value and absolute expiry time,
most recent first. -/
def Cache : Type := List (String × String × Nat)

/-- Cache lookup at the current time: the most recently stored value for the
key, unless expired. -/
def cacheGet (c : Cache) (key : String) (now : Nat) : Option String :=
  match c with
  | [] => none
  | (k, v, exp) :: rest =>
    if k == key then (if now < exp then some v else none)
    else cacheGet rest key now

/-- Cache store with a time-to-live in seconds. -/
def cacheSet (c : Cache) (key val : String) (now ttl : Nat) : Cache :=
  (key, val, now + ttl) :: c

/-- The translation cache key: the hex digest of an external hash (the hashFn
parameter models the SHA-256 of the utf-8 bytes) applied to the concatenation
of the text, an underscore, and the target language. -/
def get_translation_cache_key (hashFn : String → String)
    (text targetLang : String) : String :=
  hashFn (text ++ "_" ++ targetLang)

/-- Python or between an optional model argument and a configured default:
None and the empty string both fall back to the default. -/
def orDefault (m : Option String) (dflt : String) : String :=
  match m with
  | some s => if s != "" then s else dflt
  | none => dflt

/-- Human-readable language name map used in the prompt; unknown codes pass
through unchanged. -/
def langName (code : String) : String :=
  if code == "zh" then "中文"
  else if code == "en" then "English"
  else if code == "ja" then "日本語"
  else if code == "ko" then "한국어"
  else code

/-- The fixed instruction prompt sent to the model. -/
def buildPrompt (targetLang text : String) : String :=
  "请将以下学术段落翻译成" ++ langName targetLang ++
  "，保持术语准确性和结构完整性，不要添加任何解释或注释：\n\n" ++ text

/-- Whether one string occurs inside another. -/
def hasSub (needle hay : String) : Bool :=
  strIncludes needle.toList hay.toList

/-- Ascii lowercasing, modelling the lower method on the error message. -/
def lowerStr (s : String) : String :=
  ⟨s.data.map Char.toLower⟩

/-- The remote-failure classification of the source: an actionable message per
category, later wrapped by the generic translation-failure handler. -/
def classifyApiError (defaultModel msg : String) : String :=
  if hasSub "401" msg || hasSub "Unauthorized" msg then
    "API密钥无效或已过期，请检查QWEN_API_KEY配置。错误详情: " ++ msg
  else if hasSub "429" msg || hasSub "rate limit" (lowerStr msg) then
    "API调用频率超限，请稍后重试。错误详情: " ++ msg
  else if hasSub "timeout" (lowerStr msg) then
    "API调用超时，请检查网络连接。错误详情: " ++ msg
  else if hasSub "model" (lowerStr msg) && hasSub "not found" (lowerStr msg) then
    "模型不存在: " ++ defaultModel ++ "，请检查QWEN_MODEL配置。错误详情: " ++ msg
  else "API调用失败: " ++ msg

/-- One remote completion call, as issued by the translator. -/
structure RemoteCall where
  api_key : String
  base_url : String
  model : String
  prompt : String

/-- Outcome of one call of the translator: a returned string or a raised
exception message. -/
inductive TrOutcome where
  | ok (result : String)
  | raised (msg : String)
deriving DecidableEq

/-- The single-text translation operation. The remote parameter models the
completion endpoint, returning either the message content of the response or a
failure message; hasCache tells whether a cache object is available; now is
the current time in seconds. Returns the outcome, the cache after the call,
and the remote calls issued during the call. -/
def translate_with_llm (hashFn : String → String) (cfg : TConfig)
    (remote : RemoteCall → Except String String) (hasCache : Bool)
    (cache : Cache) (now : Nat) (text targetLang : String)
    (model : Option String) : TrOutcome × Cache × List RemoteCall :=
  if text == "" || pyTrim text == "" then (.ok text, cache, [])
  else
    let key := get_translation_cache_key hashFn text targetLang
    let hit := if hasCache then (cacheGet cache key now).getD "" else ""
    if hit != "" then (.ok hit, cache, [])
    else
      let apiKey := if cfg.qwen_api_key != "" then cfg.qwen_api_key else cfg.openai_api_key
      let baseUrl := if cfg.qwen_api_key != "" then cfg.qwen_base_url else cfg.openai_base_url
      let defaultModel :=
        if cfg.qwen_api_key != "" then orDefault model cfg.qwen_model
        else orDefault model cfg.default_model
      if apiKey == "" then (.ok text, cache, [])
      else
        let call : RemoteCall := { api_key := apiKey, base_url := baseUrl,
                                   model := defaultModel,
                                   prompt := buildPrompt targetLang text }
        match remote call with
        | .error e => (.raised ("翻译失败: " ++ classifyApiError defaultModel e), cache, [call])
        | .ok content =>
          let translated := pyTrim content
          if translated == "" then (.ok text, cache, [call])
          else
            let cache2 :=
              if hasCache then cacheSet cache key translated now 86400 else cache
            (.ok translated, cache2, [call])

/-- Outcome of the polling loop of wait_for_task_completion. -/
inductive WaitOutcome where
  | done (result : Json)
  | failedTask (errMsg : Json)
  | timeoutErr
  | attrError

/-- The polling loop of wait_for_task_completion: polls is the sequence of
poll results, fuel bounds the number of polls, n is the 0-based poll index,
and elapsed time is modelled as n times the poll interval (polls are
instantaneous and sleeps exact). On recognized in-progress states the elapsed
time is checked against the maximum wait before sleeping; on unrecognized
states the loop sleeps and re-polls without that check. The result is none
when the fuel runs out with the loop still going. -/
def waitLoop (polls : Nat → Json) (maxWaitTime pollInterval : Nat) :
    Nat → Nat → Option WaitOutcome
  | 0, _ => none
  | fuel + 1, n =>
    let result := polls n
    match pyGetD result "state" (.str "") with
    | .error _ => some .attrError
    | .ok state =>
      if state.isStrEq "done" then some (.done result)
      else if state.isStrEq "failed" then
        match pyGetD result "err_msg" (.str "解析失败") with
        | .error _ => some .attrError
        | .ok e => some (.failedTask e)
      else if state.isStrEq "pending" || state.isStrEq "running"
          || state.isStrEq "converting" then
        if n * pollInterval > maxWaitTime then some .timeoutErr
        else
          match pyGetD result "extract_progress" (.obj []) with
          | .error _ => some .attrError
          | .ok progress =>
            if progress.truthy then
              match pyGetD progress "extracted_pages" (.num 0) with
              | .error _ => some .attrError
              | .ok _ =>
                match pyGetD progress "total_pages" (.num 0) with
                | .error _ => some .attrError
                | .ok _ => waitLoop polls maxWaitTime pollInterval fuel (n + 1)
            else waitLoop polls maxWaitTime pollInterval fuel (n + 1)
      else waitLoop polls maxWaitTime pollInterval fuel (n + 1)

/-- The wait operation started at poll index 0. -/
def wait_for_task_completion (polls : Nat → Json) (maxWaitTime pollInterval : Nat)
    (fuel : Nat) : Option WaitOutcome :=
  waitLoop polls maxWaitTime pollInterval fuel 0

/-- A poll result whose state is a recognized in-progress state and whose
extract_progress value, when truthy, is a dict, so that the iteration neither
terminates nor raises at it. -/
def goodInProgress (j : Json) : Bool :=
  match pyGetD j "state" (.str "") with
  | .error _ => false
  | .ok state =>
    (state.isStrEq "pending" || state.isStrEq "running" || state.isStrEq "converting")
    &&
    (match pyGetD j "extract_progress" (.obj []) with
     | .error _ => false
     | .ok progress =>
       match progress with
       | .obj _ => true
       | _ => !progress.truthy)

def c10Input : Json :=
  .obj [("pdf_info", .arr [
    .obj [("page_idx", .num 0),
          ("para_blocks", .arr [
            .obj [("type", .str "title"),
                  ("bbox", .arr [.num 0, .num 0, .num 100, .num 20]),
                  ("lines", .arr [
                    .obj [("spans", .arr [
                      .obj [("content", .str "Intro")]])]])]])]])]

def weirdPolls : Nat → Json := fun _ => .obj [("state", .str "queued")]

def runningPolls : Nat → Json := fun _ => .obj [("state", .str "running")]

/-- The effect of the batch loop on one block, independent of the counters. -/
def processBlock (tr : String → Except String String) (force : Bool) (b : TBlock) : TBlock :=
  (tlStep tr force b ⟨0, 0, 0, none⟩).1

/-- Whether the loop issues a translation call for the block. -/
def blockAttempted (force : Bool) (b : TBlock) : Bool :=
  pyTrim b.text != "" && (force || !truthyOpt b.translated_text)

/-- Whether the translation call for the block raises. -/
def blockFails (tr : String → Except String String) (force : Bool) (b : TBlock) : Bool :=
  blockAttempted force b &&
    (match tr (pyTrim b.text) with | .error _ => true | .ok _ => false)

/-- Whether the translation call for the block succeeds. -/
def blockSucceeds (tr : String → Except String String) (force : Bool) (b : TBlock) : Bool :=
  blockAttempted force b &&
    (match tr (pyTrim b.text) with | .error _ => false | .ok _ => true)

/-- The error message of the translation call for the block, when it fails. -/
def errOf (tr : String → Except String String) (force : Bool) (b : TBlock) : Option String :=
  if blockAttempted force b then
    (match tr (pyTrim b.text) with | .error e => some e | .ok _ => none)
  else none

def tr5 : String → Except String String :=
  fun s => if s == "c" then .error "boom" else .ok (s ++ "!")

def layout5 : List TBlock :=
  [⟨"a", none⟩, ⟨"b", none⟩, ⟨"c", none⟩, ⟨"d", none⟩, ⟨"e", none⟩]

/-- Whether a character list has no leading whitespace. -/
def leftClean : List Char → Bool
  | [] => true
  | c :: _ => !pyWs c

def x1 : Json := .arr [.obj [("text", .str "x"), ("page_idx", .num 0),
  ("bbox", .arr [.num 1, .num 2, .num 3, .num 4]), ("type", .str "image")]]

def x2 : Json := .arr [.obj [("text", .str "x"), ("page_idx", .num (-1)),
  ("bbox", .arr [.num 1, .num 2, .num 3, .num 4])]]

def x3 : Json := .obj [("pages", .arr [.obj [("page_no", .num 1),
  ("blocks", .arr [.obj [("type", .str "text"), ("bbox", .arr [.num 1]),
    ("lines", .arr [.obj [("text", .str "hi")]])]])]])]

def c4Block : Json := .obj [("type", .str "text"), ("bbox", .arr []),
  ("bbox_coords", .arr [.num 9, .num 9, .num 9, .num 9]),
  ("lines", .arr [.obj [("text", .str "hi")]])]

def c4Page : Json := .obj [("page_no", .num 0), ("page", .num 2),
  ("blocks", .arr [.obj [("type", .str "text"),
    ("bbox", .arr [.num 1, .num 2, .num 3, .num 4]),
    ("lines", .arr [.obj [("text", .str "hi")]])]])]

def c4Page2 : Json := .obj [("page_no", .num 3), ("blocks", .arr [c4Block])]

def x4 : Json := .obj [("pages", .arr [c4Page])]

def x5 : Json := .obj [("pages", .arr [c4Page2])]

def cfgQ : TConfig := ⟨"qk", "qurl", "qwen-turbo", "ok", "ourl", "gpt"⟩

def remOk : RemoteCall → Except String String := fun _ => .ok " 你好 "

/-- C9: for text that is empty or strips to the empty string,
translate_with_llm returns the input unchanged, leaves the cache untouched and
issues zero remote calls, for every target language, configuration and cache
state. -/
theorem C9_noop_empty (hashFn : String → String) (cfg : TConfig)
    (remote : RemoteCall → Except String String) (hasCache : Bool)
    (cache : Cache) (now : Nat) (text targetLang : String) (model : Option String)
    (h : pyTrim text = "") :
    translate_with_llm hashFn cfg remote hasCache cache now text targetLang model
      = (.ok text, cache, []) := by
  unfold translate_with_llm
  have : (text == "" || pyTrim text == "") = true := by
    simp [h]
  simp [this]

/-- C10: on the concrete pdf_info input with one title block containing the
span Intro, the normalizer returns exactly the one-element sequence with
page 1, bbox [0,0,100,20], text Intro and type title. -/
theorem C10_end_to_end :
    parse_mineru_layout_from_data c10Input =
      [{ page := .num 1, bbox := .arr [.num 0, .num 0, .num 100, .num 20],
         text := "Intro", type := .str "title" }] := by
  rfl

/-- C9 witness: the no-op applied to a three-space string. -/
theorem C9_witness :
    pyTrim "   " = "" ∧
      translate_with_llm (fun s => s) ⟨"qk", "qurl", "qm", "", "ourl", "dm"⟩
        (fun _ => .ok "x") true [] 0 "   " "zh" none = (.ok "   ", [], []) := by
  refine ⟨by rfl, C9_noop_empty _ _ _ _ _ _ _ _ _ (by rfl)⟩

/-- C6: the cache key hashes the concatenation text + underscore +
target_lang, which is not injective in the pair: the distinct pairs (a_b, c)
and (a, b_c) produce the same key for every hash function, in particular for
SHA-256, and a translation cached for the first pair is returned on cache
lookup for the second. -/
theorem C6_cache_key_collision :
    ∀ hashFn : String → String,
      (("a_b", "c") : String × String) ≠ ("a", "b_c") ∧
      get_translation_cache_key hashFn "a_b" "c" = get_translation_cache_key hashFn "a" "b_c" ∧
      ∀ (cfg : TConfig) (remote : RemoteCall → Except String String) (cache : Cache)
        (now : Nat) (model : Option String) (v : String), v ≠ "" →
        cacheGet cache (get_translation_cache_key hashFn "a_b" "c") now = some v →
        translate_with_llm hashFn cfg remote true cache now "a" "b_c" model
          = (.ok v, cache, []) := by
  intro hashFn
  refine ⟨by simp, rfl, ?_⟩
  intro cfg remote cache now model v hv hc
  have hc2 : cacheGet cache (get_translation_cache_key hashFn "a" "b_c") now = some v := hc
  unfold translate_with_llm
  have h1 : (("a" : String) == "" || pyTrim "a" == "") = false := by rfl
  rw [h1]
  simp only [Bool.false_eq_true, if_false, hc2]
  have h2 : ((some v).getD "" != "") = true := by
    simp [bne_iff_ne, hv]
  simp [h2]
  intro h
  exact absurd h hv

/-- C8: for non-empty, non-whitespace text, when the cache lookup does not
produce a truthy hit: if the Qwen credential is configured the single remote
call uses the Qwen key, base URL and model; if it is absent and the
OpenAI-compatible credential is configured the call uses that credential; and
if neither is configured the call returns the input text unchanged with no
remote call and no error raised. -/
theorem C8_credential_resolution (hashFn : String → String) (cfg : TConfig)
    (remote : RemoteCall → Except String String) (hasCache : Bool) (cache : Cache)
    (now : Nat) (text targetLang : String) (model : Option String)
    (htext : pyTrim text ≠ "")
    (hmiss : (if hasCache then
        (cacheGet cache (get_translation_cache_key hashFn text targetLang) now).getD ""
      else "") = "") :
    (cfg.qwen_api_key ≠ "" →
      ∃ call : RemoteCall,
        (translate_with_llm hashFn cfg remote hasCache cache now text targetLang model).2.2
          = [call] ∧
        call.api_key = cfg.qwen_api_key ∧ call.base_url = cfg.qwen_base_url ∧
        call.model = orDefault model cfg.qwen_model ∧
        call.prompt = buildPrompt targetLang text) ∧
    (cfg.qwen_api_key = "" → cfg.openai_api_key ≠ "" →
      ∃ call : RemoteCall,
        (translate_with_llm hashFn cfg remote hasCache cache now text targetLang model).2.2
          = [call] ∧
        call.api_key = cfg.openai_api_key ∧ call.base_url = cfg.openai_base_url ∧
        call.model = orDefault model cfg.default_model ∧
        call.prompt = buildPrompt targetLang text) ∧
    (cfg.qwen_api_key = "" → cfg.openai_api_key = "" →
      translate_with_llm hashFn cfg remote hasCache cache now text targetLang model
        = (.ok text, cache, [])) := by
  have htext0 : text ≠ "" := by
    intro h; rw [h] at htext; exact htext rfl
  have h1 : (text == "" || pyTrim text == "") = false := by
    simp [htext, htext0]
  unfold translate_with_llm
  rw [h1]
  simp only [Bool.false_eq_true, if_false, hmiss]
  refine ⟨?_, ?_, ?_⟩
  · intro hq
    refine ⟨{ api_key := cfg.qwen_api_key, base_url := cfg.qwen_base_url, model := orDefault model cfg.qwen_model, prompt := buildPrompt targetLang text }, ?_, rfl, rfl, rfl, rfl⟩
    simp only [show (("" : String) != "") = false from rfl, Bool.false_eq_true, if_false]
    have hq2 : (cfg.qwen_api_key != "") = true := by simp [hq]
    simp only [hq2, if_pos]
    have hq3 : (cfg.qwen_api_key == "") = false := by simp [hq]
    simp only [hq3, Bool.false_eq_true, if_false]
    rcases hrem : remote { api_key := cfg.qwen_api_key, base_url := cfg.qwen_base_url, model := orDefault model cfg.qwen_model, prompt := buildPrompt targetLang text } with e | content
    · simp
    · simp only []
      split <;> simp
  · intro hq ho
    refine ⟨{ api_key := cfg.openai_api_key, base_url := cfg.openai_base_url, model := orDefault model cfg.default_model, prompt := buildPrompt targetLang text }, ?_, rfl, rfl, rfl, rfl⟩
    simp only [show (("" : String) != "") = false from rfl, Bool.false_eq_true, if_false]
    have hq2 : (cfg.qwen_api_key != "") = false := by simp [hq]
    simp only [hq2, Bool.false_eq_true, if_false]
    have ho2 : (cfg.openai_api_key == "") = false := by simp [ho]
    simp only [ho2, Bool.false_eq_true, if_false]
    rcases hrem : remote { api_key := cfg.openai_api_key, base_url := cfg.openai_base_url, model := orDefault model cfg.default_model, prompt := buildPrompt targetLang text } with e | content
    · simp
    · simp only []
      split <;> simp
  · intro hq ho
    simp [hq, ho]

lemma cacheGet_cacheSet_same (c : Cache) (k v : String) (now ttl t : Nat) :
    cacheGet (cacheSet c k v now ttl) k t = if t < now + ttl then some v else none := by
  simp [cacheGet, cacheSet]

lemma translate_hit (hashFn : String → String) (cfg : TConfig)
    (remote : RemoteCall → Except String String) (cache : Cache) (now : Nat)
    (text targetLang : String) (model : Option String) (v : String)
    (htext : pyTrim text ≠ "") (hv : v ≠ "")
    (hc : cacheGet cache (get_translation_cache_key hashFn text targetLang) now = some v) :
    translate_with_llm hashFn cfg remote true cache now text targetLang model
      = (.ok v, cache, []) := by
  have htext0 : text ≠ "" := by
    intro h; rw [h] at htext; exact htext rfl
  have h1 : (text == "" || pyTrim text == "") = false := by
    simp [htext, htext0]
  unfold translate_with_llm
  rw [h1]
  simp only [Bool.false_eq_true, if_false, if_pos, hc]
  have h2 : ((some v).getD "" != "") = true := by simp [bne_iff_ne, hv]
  simp [h2]
  intro h
  exact absurd h hv

/-- C5: translate_with_llm looks the cache up first under the key derived
from the text and target language; a truthy cached value is returned with no
remote call; and on a miss with a credential and a successful non-empty remote
result, the result is stored with a 24-hour (86400 second) expiry, so a second
call with the same text and language within the TTL makes no remote call and
returns the cached value: the two calls issue one remote call in total. -/
theorem C5_cache_roundtrip (hashFn : String → String) (cfg : TConfig)
    (remote : RemoteCall → Except String String) (cache : Cache)
    (t1 t2 : Nat) (text targetLang : String) (model : Option String) :
    (∀ v : String, v ≠ "" → pyTrim text ≠ "" →
      cacheGet cache (get_translation_cache_key hashFn text targetLang) t1 = some v →
      translate_with_llm hashFn cfg remote true cache t1 text targetLang model
        = (.ok v, cache, [])) ∧
    (pyTrim text ≠ "" →
      cacheGet cache (get_translation_cache_key hashFn text targetLang) t1 = none →
      (cfg.qwen_api_key ≠ "" ∨ cfg.openai_api_key ≠ "") →
      (∀ c : RemoteCall, ∃ s, remote c = .ok s ∧ pyTrim s ≠ "") →
      t2 < t1 + 86400 →
      ∃ (v : String) (call : RemoteCall),
        translate_with_llm hashFn cfg remote true cache t1 text targetLang model
          = (.ok v,
             cacheSet cache (get_translation_cache_key hashFn text targetLang) v t1 86400,
             [call]) ∧
        translate_with_llm hashFn cfg remote true
            (cacheSet cache (get_translation_cache_key hashFn text targetLang) v t1 86400)
            t2 text targetLang model
          = (.ok v,
             cacheSet cache (get_translation_cache_key hashFn text targetLang) v t1 86400,
             [])) := by
  constructor
  · intro v hv htext hc
    exact translate_hit hashFn cfg remote cache t1 text targetLang model v htext hv hc
  · intro htext hmiss hcred hrem httl
    have htext0 : text ≠ "" := by
      intro h; rw [h] at htext; exact htext rfl
    have h1 : (text == "" || pyTrim text == "") = false := by
      simp [htext, htext0]
    by_cases hq : cfg.qwen_api_key = ""
    · have ho : cfg.openai_api_key ≠ "" := by
        rcases hcred with h | h
        · exact absurd hq h
        · exact h
      obtain ⟨s, hrs, hs⟩ := hrem { api_key := cfg.openai_api_key, base_url := cfg.openai_base_url, model := orDefault model cfg.default_model, prompt := buildPrompt targetLang text }
      refine ⟨pyTrim s, { api_key := cfg.openai_api_key, base_url := cfg.openai_base_url, model := orDefault model cfg.default_model, prompt := buildPrompt targetLang text }, ?_, ?_⟩
      · unfold translate_with_llm
        rw [h1]
        simp only [Bool.false_eq_true, if_false, hmiss]
        simp only [Option.getD_none, show (("" : String) != "") = false from rfl, if_false]
        have hq2 : (cfg.qwen_api_key != "") = false := by simp [hq]
        simp only [hq2, Bool.false_eq_true, if_false]
        have ho2 : (cfg.openai_api_key == "") = false := by simp [ho]
        simp only [ho2, Bool.false_eq_true, if_false]
        rw [hrs]
        have hs2 : (pyTrim s == "") = false := by simp [hs]
        simp [hs2]
      · apply translate_hit
        · exact htext
        · exact hs
        · rw [cacheGet_cacheSet_same]
          simp [httl]
    · obtain ⟨s, hrs, hs⟩ := hrem { api_key := cfg.qwen_api_key, base_url := cfg.qwen_base_url, model := orDefault model cfg.qwen_model, prompt := buildPrompt targetLang text }
      refine ⟨pyTrim s, { api_key := cfg.qwen_api_key, base_url := cfg.qwen_base_url, model := orDefault model cfg.qwen_model, prompt := buildPrompt targetLang text }, ?_, ?_⟩
      · unfold translate_with_llm
        rw [h1]
        simp only [Bool.false_eq_true, if_false, hmiss]
        simp only [Option.getD_none, show (("" : String) != "") = false from rfl, if_false]
        have hq2 : (cfg.qwen_api_key != "") = true := by simp [hq]
        simp only [hq2, if_pos]
        have hq3 : (cfg.qwen_api_key == "") = false := by simp [hq]
        simp only [hq3, Bool.false_eq_true, if_false]
        rw [hrs]
        have hs2 : (pyTrim s == "") = false := by simp [hs]
        simp [hs2]
      · apply translate_hit
        · exact htext
        · exact hs
        · rw [cacheGet_cacheSet_same]
          simp [httl]

lemma recognized_not_terminal {state : Json}
    (h : (state.isStrEq "pending" || state.isStrEq "running"
          || state.isStrEq "converting") = true) :
    state.isStrEq "done" = false ∧ state.isStrEq "failed" = false := by
  cases state with
  | str s =>
    simp [Json.isStrEq] at h ⊢
    rcases h with (h | h) | h <;> subst h <;> exact ⟨by decide, by decide⟩
  | null => exact ⟨rfl, rfl⟩
  | bool b => exact ⟨rfl, rfl⟩
  | num m => exact ⟨rfl, rfl⟩
  | arr xs => exact ⟨rfl, rfl⟩
  | obj kvs => exact ⟨rfl, rfl⟩

lemma waitLoop_succ (polls : Nat → Json) (mw pi fuel n : Nat) :
    waitLoop polls mw pi (fuel + 1) n =
      (match pyGetD (polls n) "state" (.str "") with
       | .error _ => some .attrError
       | .ok state =>
         if state.isStrEq "done" then some (.done (polls n))
         else if state.isStrEq "failed" then
           match pyGetD (polls n) "err_msg" (.str "解析失败") with
           | .error _ => some .attrError
           | .ok e => some (.failedTask e)
         else if state.isStrEq "pending" || state.isStrEq "running"
             || state.isStrEq "converting" then
           if n * pi > mw then some .timeoutErr
           else
             match pyGetD (polls n) "extract_progress" (.obj []) with
             | .error _ => some .attrError
             | .ok progress =>
               if progress.truthy then
                 match pyGetD progress "extracted_pages" (.num 0) with
                 | .error _ => some .attrError
                 | .ok _ =>
                   match pyGetD progress "total_pages" (.num 0) with
                   | .error _ => some .attrError
                   | .ok _ => waitLoop polls mw pi fuel (n + 1)
               else waitLoop polls mw pi fuel (n + 1)
         else waitLoop polls mw pi fuel (n + 1)) := rfl

lemma waitLoop_timeout (polls : Nat → Json) (mw pi : Nat)
    (hg : ∀ n, goodInProgress (polls n) = true) :
    ∀ j n, mw < (n + j) * pi → waitLoop polls mw pi (j + 1) n = some .timeoutErr := by
  intro j
  induction j with
  | zero =>
    intro n hn
    have g := hg n
    unfold goodInProgress at g
    cases hstate : pyGetD (polls n) "state" (.str "") with
    | error e => rw [hstate] at g; simp at g
    | ok state =>
      rw [hstate] at g
      obtain ⟨hrec, hprog⟩ := (Bool.and_eq_true _ _).mp g
      obtain ⟨hdone, hfailed⟩ := recognized_not_terminal hrec
      rw [Nat.add_zero] at hn
      rw [waitLoop_succ, hstate]
      simp [hdone, hfailed, hrec, hn]
  | succ j ih =>
    intro n hn
    have g := hg n
    unfold goodInProgress at g
    cases hstate : pyGetD (polls n) "state" (.str "") with
    | error e => rw [hstate] at g; simp at g
    | ok state =>
      rw [hstate] at g
      obtain ⟨hrec, hprog⟩ := (Bool.and_eq_true _ _).mp g
      obtain ⟨hdone, hfailed⟩ := recognized_not_terminal hrec
      rw [waitLoop_succ, hstate]
      by_cases htime : n * pi > mw
      · simp [hdone, hfailed, hrec, htime]
      · have hrest : waitLoop polls mw pi (j + 1) (n + 1) = some .timeoutErr := by
          apply ih
          have harith : n + 1 + j = n + (j + 1) := by omega
          rw [harith]
          exact hn
        cases hpg : pyGetD (polls n) "extract_progress" (.obj []) with
        | error e => rw [hpg] at hprog; simp at hprog
        | ok progress =>
          rw [hpg] at hprog
          cases progress with
          | obj kvs => simp [hdone, hfailed, hrec, htime, hpg, hrest, pyGetD]
          | null => simp [hdone, hfailed, hrec, htime, hpg, hrest, Json.truthy]
          | bool b =>
            simp [Json.truthy] at hprog
            subst hprog
            simp [hdone, hfailed, hrec, htime, hpg, hrest, Json.truthy]
          | num m =>
            simp [Json.truthy] at hprog
            simp [hdone, hfailed, hrec, htime, hpg, hrest, Json.truthy, hprog]
          | str t =>
            simp [Json.truthy] at hprog
            simp [hdone, hfailed, hrec, htime, hpg, hrest, Json.truthy, hprog]
          | arr xs =>
            simp [Json.truthy] at hprog
            simp [hdone, hfailed, hrec, htime, hpg, hrest, Json.truthy, hprog]

/-- C2 (amended): when every poll result is a dict whose state is one of the
recognized in-progress states pending, running or converting (and whose
extract_progress, if truthy, is a dict), wait_for_task_completion raises a
timeout failure once elapsed time exceeds max_wait_time: with poll interval at
least 1 it times out within max_wait_time + 2 polls. Unrecognized states are
tolerated and re-polled, but they bypass the timeout check, so the original
claim fails for them. -/
theorem C2_amended (polls : Nat → Json) (maxWaitTime pollInterval : Nat)
    (hpi : 1 ≤ pollInterval) (hg : ∀ n, goodInProgress (polls n) = true) :
    wait_for_task_completion polls maxWaitTime pollInterval (maxWaitTime + 2)
      = some .timeoutErr := by
  unfold wait_for_task_completion
  have key : maxWaitTime < (0 + (maxWaitTime + 1)) * pollInterval := by
    rw [Nat.zero_add]
    have h1 : maxWaitTime + 1 ≤ (maxWaitTime + 1) * pollInterval := by
      conv_lhs => rw [← Nat.mul_one (maxWaitTime + 1)]
      exact Nat.mul_le_mul_left _ hpi
    omega
  exact waitLoop_timeout polls _ _ hg (maxWaitTime + 1) 0 key

/-- C2 (counterexample): with a poll source that always returns the
unrecognized state queued, max_wait=1 and poll_interval=1, the loop is still
polling after 50 polls (elapsed 49 seconds, far above max_wait_time) and no
timeout failure has been raised, contradicting the claim that a timeout is
raised once elapsed time exceeds max_wait_time for every never-terminating
task. -/
theorem C2_counterexample :
    wait_for_task_completion weirdPolls 1 1 50 = none := by rfl

/-- C2 witness: the amended theorem applied to a poll source constantly in
state running with max_wait=1 and poll_interval=1; the timeout failure is
raised at the third poll, about 2 seconds in. -/
theorem C2_amended_witness :
    (1 ≤ 1 ∧ ∀ n : Nat, goodInProgress (runningPolls n) = true) ∧
    wait_for_task_completion runningPolls 1 1 3 = some .timeoutErr :=
  ⟨⟨Nat.le_refl 1, fun _ => rfl⟩,
   C2_amended runningPolls 1 1 (Nat.le_refl 1) (fun _ => rfl)⟩

lemma tlStep_fst (tr : String → Except String String) (force : Bool)
    (b : TBlock) (st : TLState) :
    (tlStep tr force b st).1 = processBlock tr force b := by
  unfold processBlock tlStep
  by_cases h1 : (pyTrim b.text == "") = true
  · simp [h1]
  · by_cases h2 : (!force && truthyOpt b.translated_text) = true
    · simp [h1, h2]
    · cases htr : tr (pyTrim b.text) <;>
        simp [h1, h2, htr]

lemma tlStep_failed (tr : String → Except String String) (force : Bool)
    (b : TBlock) (st : TLState) :
    (tlStep tr force b st).2.failed
      = st.failed + (if blockFails tr force b then 1 else 0) := by
  unfold tlStep blockFails blockAttempted
  by_cases h1 : (pyTrim b.text == "") = true
  · have h1' : (pyTrim b.text != "") = false := by simp_all
    simp [h1, h1']
  · have h1' : (pyTrim b.text != "") = true := by simp_all
    by_cases h2 : (!force && truthyOpt b.translated_text) = true
    · have h2' : (force || !truthyOpt b.translated_text) = false := by
        rcases Bool.and_eq_true _ _ |>.mp h2 with ⟨hf, ht⟩
        simp_all
      simp [h1, h2, h1', h2']
    · have h2' : (force || !truthyOpt b.translated_text) = true := by
        cases force <;> cases htt : truthyOpt b.translated_text <;> simp_all
      cases htr : tr (pyTrim b.text) <;> simp [h1, h2, h1', h2', htr]

lemma tlStep_translated (tr : String → Except String String) (force : Bool)
    (b : TBlock) (st : TLState) :
    (tlStep tr force b st).2.translated
      = st.translated + (if blockSucceeds tr force b then 1 else 0) := by
  unfold tlStep blockSucceeds blockAttempted
  by_cases h1 : (pyTrim b.text == "") = true
  · have h1' : (pyTrim b.text != "") = false := by simp_all
    simp [h1, h1']
  · have h1' : (pyTrim b.text != "") = true := by simp_all
    by_cases h2 : (!force && truthyOpt b.translated_text) = true
    · have h2' : (force || !truthyOpt b.translated_text) = false := by
        rcases Bool.and_eq_true _ _ |>.mp h2 with ⟨hf, ht⟩
        simp_all
      simp [h1, h2, h1', h2']
    · have h2' : (force || !truthyOpt b.translated_text) = true := by
        cases force <;> cases htt : truthyOpt b.translated_text <;> simp_all
      cases htr : tr (pyTrim b.text) <;> simp [h1, h2, h1', h2', htr]

lemma tlStep_first_error (tr : String → Except String String) (force : Bool)
    (b : TBlock) (st : TLState) :
    (tlStep tr force b st).2.first_error
      = (match errOf tr force b with
         | some e => if st.failed = 0 then some e else st.first_error
         | none => st.first_error) := by
  unfold tlStep errOf blockAttempted
  by_cases h1 : (pyTrim b.text == "") = true
  · have h1' : (pyTrim b.text != "") = false := by simp_all
    simp [h1, h1']
  · have h1' : (pyTrim b.text != "") = true := by simp_all
    by_cases h2 : (!force && truthyOpt b.translated_text) = true
    · have h2' : (force || !truthyOpt b.translated_text) = false := by
        cases force <;> cases htt : truthyOpt b.translated_text <;> simp_all
      simp [h1, h2, h1', h2']
    · have h2' : (force || !truthyOpt b.translated_text) = true := by
        cases force <;> cases htt : truthyOpt b.translated_text <;> simp_all
      cases htr : tr (pyTrim b.text) <;> simp [h1, h2, h1', h2', htr]

lemma errOf_none_fails (tr : String → Except String String) (force : Bool) (b : TBlock)
    (h : errOf tr force b = none) : blockFails tr force b = false := by
  unfold errOf at h
  unfold blockFails
  by_cases ha : blockAttempted force b = true
  · rw [ha] at h
    simp only [if_true] at h
    cases htr : tr (pyTrim b.text) with
    | error e => rw [htr] at h; simp at h
    | ok v => simp [ha, htr]
  · simp only [Bool.not_eq_true] at ha
    simp [ha]

lemma errOf_some_fails (tr : String → Except String String) (force : Bool) (b : TBlock)
    (e : String) (h : errOf tr force b = some e) : blockFails tr force b = true := by
  unfold errOf at h
  unfold blockFails
  by_cases ha : blockAttempted force b = true
  · rw [ha] at h
    simp only [if_true] at h
    cases htr : tr (pyTrim b.text) with
    | error e2 => simp [ha, htr]
    | ok v => rw [htr] at h; simp at h
  · rw [if_neg] at h
    · simp at h
    · simp_all

lemma tlRun_fst (tr : String → Except String String) (force : Bool) :
    ∀ (l : List TBlock) (st : TLState),
      (tlRun tr force l st).1 = l.map (processBlock tr force) := by
  intro l
  induction l with
  | nil => intro st; rfl
  | cons b rest ih =>
    intro st
    simp [tlRun, tlStep_fst, ih]

lemma tlRun_failed (tr : String → Except String String) (force : Bool) :
    ∀ (l : List TBlock) (st : TLState),
      (tlRun tr force l st).2.failed = st.failed + l.countP (blockFails tr force) := by
  intro l
  induction l with
  | nil => intro st; simp [tlRun]
  | cons b rest ih =>
    intro st
    simp only [tlRun, ih, tlStep_failed, List.countP_cons]
    omega

lemma tlRun_translated (tr : String → Except String String) (force : Bool) :
    ∀ (l : List TBlock) (st : TLState),
      (tlRun tr force l st).2.translated
        = st.translated + l.countP (blockSucceeds tr force) := by
  intro l
  induction l with
  | nil => intro st; simp [tlRun]
  | cons b rest ih =>
    intro st
    simp only [tlRun, ih, tlStep_translated, List.countP_cons]
    omega

lemma tlRun_first_error (tr : String → Except String String) (force : Bool) :
    ∀ (l : List TBlock) (st : TLState),
      (tlRun tr force l st).2.first_error
        = (if st.failed = 0 then
             (match (l.filterMap (errOf tr force)).head? with
              | some e => some e
              | none => st.first_error)
           else st.first_error) := by
  intro l
  induction l with
  | nil =>
    intro st
    show st.first_error = _
    split <;> rfl
  | cons b rest ih =>
    intro st
    have hstep := tlStep_first_error tr force b st
    have hfail := tlStep_failed tr force b st
    cases herr : errOf tr force b with
    | none =>
      have hbf : blockFails tr force b = false := errOf_none_fails tr force b herr
      rw [herr] at hstep
      rw [hbf] at hfail
      simp at hfail
      simp only [tlRun, ih, hstep, hfail, List.filterMap_cons, herr]
    | some e =>
      have hbf : blockFails tr force b = true := errOf_some_fails tr force b e herr
      rw [herr] at hstep
      rw [hbf] at hfail
      simp at hfail
      simp only [tlRun, ih, hfail]
      have hne : ¬ (st.failed + 1 = 0) := by omega
      simp only [hne, if_false, hstep, List.filterMap_cons, herr, List.head?_cons]

/-- C3 (amended): the batch translation processes every block independently
with no early abort; failed_count counts exactly the blocks whose translation
call raises; translated_count counts exactly the successful calls; first_error
is the first failing message; a failing block with no truthy existing
translation gets its stripped original text (not the raw original) stored as
translated_text; and in the concrete 5-block scenario where block 3 raises, the
result is translated_count=4, failed_count=1, first_error set, and block 3
falls back to its own text. -/
theorem C3_amended :
    (∀ (tr : String → Except String String) (force : Bool) (layout : List TBlock),
      (translate_layout tr force layout).layout = layout.map (processBlock tr force) ∧
      (translate_layout tr force layout).failed_count
        = layout.countP (blockFails tr force) ∧
      (translate_layout tr force layout).translated_count
        = layout.countP (blockSucceeds tr force) ∧
      (translate_layout tr force layout).first_error
        = (layout.filterMap (errOf tr force)).head?) ∧
    (∀ (tr : String → Except String String) (force : Bool) (b : TBlock),
      blockFails tr force b = true → truthyOpt b.translated_text = false →
      processBlock tr force b = { b with translated_text := some (pyTrim b.text) }) ∧
    translate_layout tr5 false layout5
      = ⟨[⟨"a", some "a!"⟩, ⟨"b", some "b!"⟩, ⟨"c", some "c"⟩,
          ⟨"d", some "d!"⟩, ⟨"e", some "e!"⟩], 4, 0, 1, 5, some "boom"⟩ := by
  refine ⟨?_, ?_, rfl⟩
  · intro tr force layout
    refine ⟨?_, ?_, ?_, ?_⟩
    · show (tlRun tr force layout ⟨0, 0, 0, none⟩).1 = _
      exact tlRun_fst tr force layout _
    · show (tlRun tr force layout ⟨0, 0, 0, none⟩).2.failed = _
      rw [tlRun_failed]
      simp
    · show (tlRun tr force layout ⟨0, 0, 0, none⟩).2.translated = _
      rw [tlRun_translated]
      simp
    · show (tlRun tr force layout ⟨0, 0, 0, none⟩).2.first_error = _
      rw [tlRun_first_error]
      simp only [if_pos]
      cases (layout.filterMap (errOf tr force)).head? <;> rfl
  · intro tr force b hfail htt
    unfold blockFails blockAttempted at hfail
    obtain ⟨hatt, herr⟩ := (Bool.and_eq_true _ _).mp hfail
    obtain ⟨hne, _⟩ := (Bool.and_eq_true _ _).mp hatt
    unfold processBlock tlStep
    have h1 : (pyTrim b.text == "") = false := by
      cases h : (pyTrim b.text == "") <;> simp_all
    have h2 : (!force && truthyOpt b.translated_text) = false := by
      simp [htt]
    cases htr : tr (pyTrim b.text) with
    | error e => simp [h1, h2, htr, htt]
    | ok v => rw [htr] at herr; simp at herr

/-- C3 (counterexample): a failing block whose text carries surrounding
whitespace gets the stripped text stored as translated_text, so the stored
value differs from the original text, contradicting the claim that the
original text is stored. -/
theorem C3_counterexample :
    translate_layout (fun _ => Except.error "boom") false [⟨" hi ", none⟩]
      = ⟨[⟨" hi ", some "hi"⟩], 0, 0, 1, 1, some "boom"⟩ ∧
    (some "hi" : Option String) ≠ some " hi " := by
  exact ⟨rfl, by simp⟩

/-- C3 witness: the fallback clause of the amended theorem applied to a
concrete failing block. -/
theorem C3_amended_witness :
    blockFails (fun _ => Except.error "boom") false ⟨" hi ", none⟩ = true ∧
    truthyOpt (⟨" hi ", none⟩ : TBlock).translated_text = false ∧
    processBlock (fun _ => Except.error "boom") false ⟨" hi ", none⟩
      = ⟨" hi ", some "hi"⟩ :=
  ⟨rfl, rfl, C3_amended.2.1 (fun _ => Except.error "boom") false ⟨" hi ", none⟩ rfl rfl⟩

lemma leftClean_dropWs : ∀ xs : List Char, leftClean (dropWs xs) = true := by
  intro xs
  induction xs with
  | nil => rfl
  | cons c cs ih =>
    by_cases h : pyWs c = true
    · simp [dropWs, h, ih]
    · simp only [Bool.not_eq_true] at h
      simp [dropWs, h, leftClean]

lemma dropWs_of_leftClean : ∀ xs : List Char, leftClean xs = true → dropWs xs = xs := by
  intro xs h
  cases xs with
  | nil => rfl
  | cons c cs =>
    simp only [leftClean, Bool.not_eq_true'] at h
    simp [dropWs, h]

lemma dropWs_suffix : ∀ xs : List Char, dropWs xs <:+ xs := by
  intro xs
  induction xs with
  | nil => exact List.suffix_refl []
  | cons c cs ih =>
    by_cases h : pyWs c = true
    · simp only [dropWs, h, if_true]
      exact ih.trans (List.suffix_cons c cs)
    · simp only [Bool.not_eq_true] at h
      simp [dropWs, h]

lemma leftClean_reverse_dropWs_reverse (b : List Char) (hb : leftClean b = true) :
    leftClean (dropWs b.reverse).reverse = true := by
  cases ha : dropWs b.reverse with
  | nil => simp [ha, leftClean]
  | cons c cs =>
    have hsuf : dropWs b.reverse <:+ b.reverse := dropWs_suffix b.reverse
    rw [ha] at hsuf
    obtain ⟨t, ht⟩ := hsuf
    cases b with
    | nil => simp at ht
    | cons d ds =>
      simp only [leftClean, Bool.not_eq_true'] at hb
      have ht2 : (c :: cs).reverse ++ t.reverse = d :: ds := by
        have hrr := congrArg List.reverse ht
        simpa using hrr
      cases hrev : (c :: cs).reverse with
      | nil => simp [leftClean]
      | cons e es =>
        rw [hrev] at ht2
        have he : e = d := by
          have hh := congrArg List.head? ht2
          simpa using hh
        subst he
        simp [leftClean, hb]

lemma pyTrim_idem (s : String) : pyTrim (pyTrim s) = pyTrim s := by
  unfold pyTrim
  congr 1
  have hB : leftClean (dropWs s.data.reverse) = true := leftClean_dropWs _
  have hA : leftClean ((dropWs ((dropWs s.data.reverse).reverse)).reverse) = true :=
    leftClean_reverse_dropWs_reverse _ hB
  show dropWs ((dropWs ((dropWs ((dropWs s.data.reverse).reverse)).reverse)).reverse)
      = dropWs ((dropWs s.data.reverse).reverse)
  rw [dropWs_of_leftClean _ hA]
  rw [List.reverse_reverse]
  exact dropWs_of_leftClean _ (leftClean_dropWs _)

lemma f4Block_shape {pageNo blk : Json} {b : Block}
    (h : f4Block pageNo blk = .ok (some b)) :
    b.page = pageNo ∧ resolveBbox blk = .ok b.bbox ∧
    (b.type.isStrEq "text" || b.type.isStrEq "title") = true ∧
    b.text ≠ "" ∧ pyTrim b.text = b.text := by
  unfold f4Block at h
  cases hty : pyGetD blk "type" (.str "") with
  | error e => rw [hty] at h; simp [Bind.bind, Except.bind] at h
  | ok btype =>
    rw [hty] at h
    simp only [Bind.bind, Except.bind] at h
    by_cases ht : (btype.isStrEq "text" || btype.isStrEq "title") = true
    · rw [if_pos ht] at h
      cases hlines : pyGetD blk "lines" (.arr []) with
      | error e => rw [hlines] at h; simp at h
      | ok lines =>
        rw [hlines] at h
        simp only [] at h
        by_cases htr : lines.truthy = true
        · simp only [htr, Bool.not_true, Bool.false_eq_true, if_false] at h
          cases hit : pyIter lines with
          | error e => rw [hit] at h; simp at h
          | ok ls =>
            rw [hit] at h
            simp only [] at h
            cases hj : pyJoin (ls.foldl (fun acc l =>
                match f4LineText l with
                | some t => acc ++ [t]
                | none => acc) []) with
            | error e => rw [hj] at h; simp at h
            | ok joined =>
              rw [hj] at h
              simp only [] at h
              by_cases he : pyTrim joined = ""
              · rw [if_pos he] at h; simp at h
              · rw [if_neg he] at h
                cases hbb : resolveBbox blk with
                | error e => rw [hbb] at h; simp at h
                | ok bbox =>
                  rw [hbb] at h
                  simp only [Except.ok.injEq, Option.some.injEq] at h
                  subst h
                  exact ⟨rfl, by simp [hbb], ht, he, pyTrim_idem joined⟩
        · simp only [htr] at h
          simp at h
    · rw [if_neg ht] at h
      simp at h

lemma pyAdd1_num {j v : Json} (h : pyAdd1 j = .ok v) : ∃ m : Int, v = .num m := by
  cases j <;> simp [pyAdd1] at h <;> exact ⟨_, h.symm⟩

lemma f1Block_shape {pageNo blk : Json} {b : Block}
    (h : f1Block pageNo blk = .ok (some b)) :
    b.page = pageNo ∧ (∃ n, pyLen b.bbox = .ok n ∧ 4 ≤ n) ∧
    (b.type.isStrEq "text" || b.type.isStrEq "title") = true ∧
    b.text ≠ "" ∧ pyTrim b.text = b.text := by
  unfold f1Block at h
  cases hty : pyGetD blk "type" (.str "") with
  | error e => rw [hty] at h; simp [Bind.bind, Except.bind] at h
  | ok btype =>
    rw [hty] at h
    simp only [Bind.bind, Except.bind] at h
    by_cases ht : (btype.isStrEq "text" || btype.isStrEq "title") = true
    · rw [if_pos ht] at h
      cases hbb : pyGetD blk "bbox" (.arr []) with
      | error e => rw [hbb] at h; simp at h
      | ok bbox =>
        rw [hbb] at h
        simp only [] at h
        by_cases htr : bbox.truthy = true
        · rw [if_pos htr] at h
          cases hlen : pyLen bbox with
          | error e => rw [hlen] at h; simp at h
          | ok n =>
            rw [hlen] at h
            simp only [] at h
            by_cases hn : n < 4
            · rw [if_pos hn] at h; simp at h
            · rw [if_neg hn] at h
              cases hlg : pyGetD blk "lines" (.arr []) with
              | error e => rw [hlg] at h; simp at h
              | ok linesJ =>
                rw [hlg] at h
                simp only [] at h
                cases hli : pyIter linesJ with
                | error e => rw [hli] at h; simp at h
                | ok lines =>
                  rw [hli] at h
                  simp only [] at h
                  cases hlp : lineParts lines with
                  | error e => rw [hlp] at h; simp at h
                  | ok parts =>
                    rw [hlp] at h
                    simp only [] at h
                    cases hj : pyJoin parts with
                    | error e => rw [hj] at h; simp at h
                    | ok joined =>
                      rw [hj] at h
                      simp only [] at h
                      by_cases he : pyTrim joined = ""
                      · rw [if_pos he] at h; simp at h
                      · rw [if_neg he] at h
                        simp only [Except.ok.injEq, Option.some.injEq] at h
                        subst h
                        exact ⟨rfl, ⟨n, by simp [hlen], by omega⟩, ht, he,
                               pyTrim_idem joined⟩
        · simp only [Bool.not_eq_true] at htr
          rw [htr] at h
          simp at h
    · rw [if_neg ht] at h
      simp at h

lemma f2Item_shape {item : Json} {b : Block}
    (h : f2Item item = .ok (some b)) :
    (∃ n, pyLen b.bbox = .ok n ∧ 4 ≤ n) ∧ (∃ m : Int, b.page = .num m) ∧
    b.text ≠ "" ∧ pyTrim b.text = b.text := by
  unfold f2Item at h
  cases htx : pyGetD item "text" (.str "") with
  | error e => rw [htx] at h; simp [Bind.bind, Except.bind] at h
  | ok textJ =>
    rw [htx] at h
    simp only [Bind.bind, Except.bind] at h
    cases hst : pyStrip textJ with
    | error e => rw [hst] at h; simp at h
    | ok text =>
      rw [hst] at h
      simp only [] at h
      by_cases he : text = ""
      · rw [if_pos he] at h; simp at h
      · rw [if_neg he] at h
        cases hbb : pyGetD item "bbox" (.arr []) with
        | error e => rw [hbb] at h; simp at h
        | ok bbox =>
          rw [hbb] at h
          simp only [] at h
          by_cases htr : bbox.truthy = true
          · rw [htr] at h
            simp only [Bool.not_true, Bool.false_eq_true, if_false] at h
            cases hlen : pyLen bbox with
            | error e => rw [hlen] at h; simp at h
            | ok n =>
              rw [hlen] at h
              simp only [] at h
              by_cases hn : n < 4
              · rw [if_pos hn] at h; simp at h
              · rw [if_neg hn] at h
                cases hpi : pyGetD item "page_idx" (.num 0) with
                | error e => rw [hpi] at h; simp at h
                | ok pidx =>
                  rw [hpi] at h
                  simp only [] at h
                  cases hpn : pyAdd1 pidx with
                  | error e => rw [hpn] at h; simp at h
                  | ok pageNo =>
                    rw [hpn] at h
                    simp only [] at h
                    cases ht0 : pyGetD item "type" (.str "text") with
                    | error e => rw [ht0] at h; simp at h
                    | ok t0 =>
                      rw [ht0] at h
                      simp only [] at h
                      cases htl : pyGetD item "text_level" .null with
                      | error e => rw [htl] at h; simp at h
                      | ok tl =>
                        rw [htl] at h
                        simp only [Except.ok.injEq, Option.some.injEq] at h
                        subst h
                        have htext : text = pyTrim text ∧ text ≠ "" := by
                          cases textJ with
                          | str s =>
                            simp only [pyStrip, Except.ok.injEq] at hst
                            subst hst
                            exact ⟨(pyTrim_idem s).symm, he⟩
                          | null => simp [pyStrip] at hst
                          | bool x => simp [pyStrip] at hst
                          | num x => simp [pyStrip] at hst
                          | arr x => simp [pyStrip] at hst
                          | obj x => simp [pyStrip] at hst
                        obtain ⟨m, hm⟩ := pyAdd1_num hpn
                        exact ⟨⟨n, by simp [hlen], by omega⟩, ⟨m, by simp [hm]⟩,
                               htext.2, htext.1.symm⟩
          · simp only [Bool.not_eq_true] at htr
            rw [htr] at h
            simp at h

lemma f3Block_shape {pn : Nat} {blk : Json} {b : Block}
    (h : f3Block pn blk = .ok (some b)) :
    b.page = .num (Int.ofNat pn) ∧ (∃ n, pyLen b.bbox = .ok n ∧ 4 ≤ n) ∧
    b.text ≠ "" ∧ pyTrim b.text = b.text := by
  unfold f3Block at h
  cases blk with
  | obj kvs =>
    simp only [Bind.bind, Except.bind] at h
    cases hst : pyStrip ((lookupField kvs "content").getD (.str "")) with
    | error e => rw [hst] at h; simp at h
    | ok content =>
      rw [hst] at h
      simp only [] at h
      by_cases he : content = ""
      · rw [if_pos he] at h; simp at h
      · rw [if_neg he] at h
        by_cases htr : ((lookupField kvs "bbox").getD (.arr [])).truthy = true
        · rw [htr] at h
          simp only [Bool.not_true, Bool.false_eq_true, if_false] at h
          cases hlen : pyLen ((lookupField kvs "bbox").getD (.arr [])) with
          | error e => rw [hlen] at h; simp at h
          | ok n =>
            rw [hlen] at h
            simp only [] at h
            by_cases hn : n < 4
            · rw [if_pos hn] at h; simp at h
            · rw [if_neg hn] at h
              simp only [Except.ok.injEq, Option.some.injEq] at h
              subst h
              have hcontent : content = pyTrim content ∧ content ≠ "" := by
                cases hcj : (lookupField kvs "content").getD (.str "") with
                | str s =>
                  rw [hcj] at hst
                  simp only [pyStrip, Except.ok.injEq] at hst
                  subst hst
                  exact ⟨(pyTrim_idem s).symm, he⟩
                | null => rw [hcj] at hst; simp [pyStrip] at hst
                | bool x => rw [hcj] at hst; simp [pyStrip] at hst
                | num x => rw [hcj] at hst; simp [pyStrip] at hst
                | arr x => rw [hcj] at hst; simp [pyStrip] at hst
                | obj x => rw [hcj] at hst; simp [pyStrip] at hst
              exact ⟨rfl, ⟨n, by simp [hlen], by omega⟩, hcontent.2, hcontent.1.symm⟩
        · simp only [Bool.not_eq_true] at htr
          rw [htr] at h
          simp at h
  | null => simp at h
  | bool x => simp at h
  | num x => simp at h
  | str x => simp at h
  | arr x => simp at h

lemma f4Blocks_mem (pn : Json) :
    ∀ (bs : List Json) (l : List Block), f4Blocks pn bs = .ok l →
      ∀ b ∈ l, ∃ blk ∈ bs, f4Block pn blk = .ok (some b) := by
  intro bs
  induction bs with
  | nil =>
    intro l h b hb
    simp only [f4Blocks, Except.ok.injEq] at h
    subst h
    cases hb
  | cons blk rest ih =>
    intro l h b hb
    unfold f4Blocks at h
    cases hblk : f4Block pn blk with
    | error e => rw [hblk] at h; simp [Bind.bind, Except.bind] at h
    | ok ob =>
      rw [hblk] at h
      simp only [Bind.bind, Except.bind] at h
      cases hrest : f4Blocks pn rest with
      | error e => rw [hrest] at h; simp at h
      | ok more =>
        rw [hrest] at h
        cases ob with
        | some x =>
          simp only [Except.ok.injEq] at h
          subst h
          rcases List.mem_cons.mp hb with hb | hb
          · subst hb
            exact ⟨blk, List.mem_cons_self _ _, hblk⟩
          · obtain ⟨blk2, hm, hq⟩ := ih more hrest b hb
            exact ⟨blk2, List.mem_cons_of_mem _ hm, hq⟩
        | none =>
          simp only [Except.ok.injEq] at h
          subst h
          obtain ⟨blk2, hm, hq⟩ := ih _ hrest b hb
          exact ⟨blk2, List.mem_cons_of_mem _ hm, hq⟩

lemma f1Blocks_mem (pn : Json) :
    ∀ (bs : List Json) (l : List Block), f1Blocks pn bs = .ok l →
      ∀ b ∈ l, ∃ blk ∈ bs, f1Block pn blk = .ok (some b) := by
  intro bs
  induction bs with
  | nil =>
    intro l h b hb
    simp only [f1Blocks, Except.ok.injEq] at h
    subst h
    cases hb
  | cons blk rest ih =>
    intro l h b hb
    unfold f1Blocks at h
    cases hblk : f1Block pn blk with
    | error e => rw [hblk] at h; simp [Bind.bind, Except.bind] at h
    | ok ob =>
      rw [hblk] at h
      simp only [Bind.bind, Except.bind] at h
      cases hrest : f1Blocks pn rest with
      | error e => rw [hrest] at h; simp at h
      | ok more =>
        rw [hrest] at h
        cases ob with
        | some x =>
          simp only [Except.ok.injEq] at h
          subst h
          rcases List.mem_cons.mp hb with hb | hb
          · subst hb
            exact ⟨blk, List.mem_cons_self _ _, hblk⟩
          · obtain ⟨blk2, hm, hq⟩ := ih more hrest b hb
            exact ⟨blk2, List.mem_cons_of_mem _ hm, hq⟩
        | none =>
          simp only [Except.ok.injEq] at h
          subst h
          obtain ⟨blk2, hm, hq⟩ := ih _ hrest b hb
          exact ⟨blk2, List.mem_cons_of_mem _ hm, hq⟩

lemma f2Items_mem :
    ∀ (bs : List Json) (l : List Block), f2Items bs = .ok l →
      ∀ b ∈ l, ∃ blk ∈ bs, f2Item blk = .ok (some b) := by
  intro bs
  induction bs with
  | nil =>
    intro l h b hb
    simp only [f2Items, Except.ok.injEq] at h
    subst h
    cases hb
  | cons blk rest ih =>
    intro l h b hb
    unfold f2Items at h
    cases hblk : f2Item blk with
    | error e => rw [hblk] at h; simp [Bind.bind, Except.bind] at h
    | ok ob =>
      rw [hblk] at h
      simp only [Bind.bind, Except.bind] at h
      cases hrest : f2Items rest with
      | error e => rw [hrest] at h; simp at h
      | ok more =>
        rw [hrest] at h
        cases ob with
        | some x =>
          simp only [Except.ok.injEq] at h
          subst h
          rcases List.mem_cons.mp hb with hb | hb
          · subst hb
            exact ⟨blk, List.mem_cons_self _ _, hblk⟩
          · obtain ⟨blk2, hm, hq⟩ := ih more hrest b hb
            exact ⟨blk2, List.mem_cons_of_mem _ hm, hq⟩
        | none =>
          simp only [Except.ok.injEq] at h
          subst h
          obtain ⟨blk2, hm, hq⟩ := ih _ hrest b hb
          exact ⟨blk2, List.mem_cons_of_mem _ hm, hq⟩

lemma f3Blocks_mem (pn : Nat) :
    ∀ (bs : List Json) (l : List Block), f3Blocks pn bs = .ok l →
      ∀ b ∈ l, ∃ blk ∈ bs, f3Block pn blk = .ok (some b) := by
  intro bs
  induction bs with
  | nil =>
    intro l h b hb
    simp only [f3Blocks, Except.ok.injEq] at h
    subst h
    cases hb
  | cons blk rest ih =>
    intro l h b hb
    unfold f3Blocks at h
    cases hblk : f3Block pn blk with
    | error e => rw [hblk] at h; simp [Bind.bind, Except.bind] at h
    | ok ob =>
      rw [hblk] at h
      simp only [Bind.bind, Except.bind] at h
      cases hrest : f3Blocks pn rest with
      | error e => rw [hrest] at h; simp at h
      | ok more =>
        rw [hrest] at h
        cases ob with
        | some x =>
          simp only [Except.ok.injEq] at h
          subst h
          rcases List.mem_cons.mp hb with hb | hb
          · subst hb
            exact ⟨blk, List.mem_cons_self _ _, hblk⟩
          · obtain ⟨blk2, hm, hq⟩ := ih more hrest b hb
            exact ⟨blk2, List.mem_cons_of_mem _ hm, hq⟩
        | none =>
          simp only [Except.ok.injEq] at h
          subst h
          obtain ⟨blk2, hm, hq⟩ := ih _ hrest b hb
          exact ⟨blk2, List.mem_cons_of_mem _ hm, hq⟩

lemma f4Page_mem {p : Json} {l : List Block} (h : f4Page p = .ok l) :
    ∀ b ∈ l, ∃ pn, resolvePageNo p = .ok pn ∧
      ∃ blocksJ, pyGetD p "blocks" (.arr []) = .ok blocksJ ∧
        ∃ bs, pyIter blocksJ = .ok bs ∧
          ∃ blk ∈ bs, f4Block pn blk = .ok (some b) := by
  intro b hb
  unfold f4Page at h
  cases hpn : resolvePageNo p with
  | error e => rw [hpn] at h; simp [Bind.bind, Except.bind] at h
  | ok pn =>
    rw [hpn] at h
    simp only [Bind.bind, Except.bind] at h
    cases hbj : pyGetD p "blocks" (.arr []) with
    | error e => rw [hbj] at h; simp at h
    | ok blocksJ =>
      rw [hbj] at h
      simp only [] at h
      by_cases htr : blocksJ.truthy = true
      · rw [htr] at h
        simp only [Bool.not_true, Bool.false_eq_true, if_false] at h
        cases hlen : pyLen blocksJ with
        | error e => rw [hlen] at h; simp at h
        | ok n =>
          rw [hlen] at h
          simp only [] at h
          cases hbs : pyIter blocksJ with
          | error e => rw [hbs] at h; simp at h
          | ok bs =>
            rw [hbs] at h
            obtain ⟨blk, hm, hq⟩ := f4Blocks_mem pn bs l h b hb
            exact ⟨pn, rfl, blocksJ, rfl, bs, hbs, blk, hm, hq⟩
      · simp only [Bool.not_eq_true] at htr
        rw [htr] at h
        simp only [Bool.not_false, if_true, Except.ok.injEq] at h
        subst h
        cases hb

lemma f4Pages_mem :
    ∀ (ps : List Json) (l : List Block), f4Pages ps = .ok l →
      ∀ b ∈ l, ∃ p ∈ ps, ∃ here, f4Page p = .ok here ∧ b ∈ here := by
  intro ps
  induction ps with
  | nil =>
    intro l h b hb
    simp only [f4Pages, Except.ok.injEq] at h
    subst h
    cases hb
  | cons p rest ih =>
    intro l h b hb
    unfold f4Pages at h
    cases hp : f4Page p with
    | error e => rw [hp] at h; simp [Bind.bind, Except.bind] at h
    | ok here =>
      rw [hp] at h
      simp only [Bind.bind, Except.bind] at h
      cases hrest : f4Pages rest with
      | error e => rw [hrest] at h; simp at h
      | ok more =>
        rw [hrest] at h
        simp only [Except.ok.injEq] at h
        subst h
        rcases List.mem_append.mp hb with hb | hb
        · exact ⟨p, List.mem_cons_self _ _, here, hp, hb⟩
        · obtain ⟨p2, hm, here2, hq, hb2⟩ := ih more hrest b hb
          exact ⟨p2, List.mem_cons_of_mem _ hm, here2, hq, hb2⟩

lemma parsePages_mem {d : Json} {l : List Block} (h : parsePages d = .ok l) :
    ∀ b ∈ l, ∃ pagesJ, pyGetD d "pages" (.arr []) = .ok pagesJ ∧
      ∃ ps, pyIter pagesJ = .ok ps ∧
        ∃ p ∈ ps, ∃ here, f4Page p = .ok here ∧ b ∈ here := by
  intro b hb
  unfold parsePages at h
  cases hpj : pyGetD d "pages" (.arr []) with
  | error e => rw [hpj] at h; simp [Bind.bind, Except.bind] at h
  | ok pagesJ =>
    rw [hpj] at h
    simp only [Bind.bind, Except.bind] at h
    by_cases htr : pagesJ.truthy = true
    · rw [htr] at h
      simp only [Bool.not_true, Bool.false_eq_true, if_false] at h
      cases hlen : pyLen pagesJ with
      | error e => rw [hlen] at h; simp at h
      | ok n =>
        rw [hlen] at h
        simp only [] at h
        cases hps : pyIter pagesJ with
        | error e => rw [hps] at h; simp at h
        | ok ps =>
          rw [hps] at h
          obtain ⟨p, hm, here, hq, hb2⟩ := f4Pages_mem ps l h b hb
          exact ⟨pagesJ, rfl, ps, hps, p, hm, here, hq, hb2⟩
    · simp only [Bool.not_eq_true] at htr
      rw [htr] at h
      simp only [Bool.not_false, if_true, Except.ok.injEq] at h
      subst h
      cases hb

lemma f1Page_mem {p : Json} {l : List Block} (h : f1Page p = .ok l) :
    ∀ b ∈ l, ∃ pidx, pyGetD p "page_idx" (.num 0) = .ok pidx ∧
      ∃ pn, pyAdd1 pidx = .ok pn ∧ ∃ blk, f1Block pn blk = .ok (some b) := by
  intro b hb
  unfold f1Page at h
  cases hpi : pyGetD p "page_idx" (.num 0) with
  | error e => rw [hpi] at h; simp [Bind.bind, Except.bind] at h
  | ok pidx =>
    rw [hpi] at h
    simp only [Bind.bind, Except.bind] at h
    cases hpn : pyAdd1 pidx with
    | error e => rw [hpn] at h; simp at h
    | ok pn =>
      rw [hpn] at h
      simp only [] at h
      cases hpb : pyGetD p "para_blocks" (.arr []) with
      | error e => rw [hpb] at h; simp at h
      | ok paraBlocks =>
        rw [hpb] at h
        simp only [] at h
        by_cases htr : paraBlocks.truthy = true
        · rw [htr] at h
          simp only [Bool.not_true, Bool.false_eq_true, if_false] at h
          cases hlen : pyLen paraBlocks with
          | error e => rw [hlen] at h; simp at h
          | ok n =>
            rw [hlen] at h
            simp only [] at h
            cases hbs : pyIter paraBlocks with
            | error e => rw [hbs] at h; simp at h
            | ok bs =>
              rw [hbs] at h
              obtain ⟨blk, hm, hq⟩ := f1Blocks_mem pn bs l h b hb
              exact ⟨pidx, rfl, pn, hpn, blk, hq⟩
        · simp only [Bool.not_eq_true] at htr
          rw [htr] at h
          simp only [Bool.not_false, if_true, Except.ok.injEq] at h
          subst h
          cases hb

lemma f1Pages_mem :
    ∀ (ps : List Json) (l : List Block), f1Pages ps = .ok l →
      ∀ b ∈ l, ∃ p ∈ ps, ∃ here, f1Page p = .ok here ∧ b ∈ here := by
  intro ps
  induction ps with
  | nil =>
    intro l h b hb
    simp only [f1Pages, Except.ok.injEq] at h
    subst h
    cases hb
  | cons p rest ih =>
    intro l h b hb
    unfold f1Pages at h
    cases hp : f1Page p with
    | error e => rw [hp] at h; simp [Bind.bind, Except.bind] at h
    | ok here =>
      rw [hp] at h
      simp only [Bind.bind, Except.bind] at h
      cases hrest : f1Pages rest with
      | error e => rw [hrest] at h; simp at h
      | ok more =>
        rw [hrest] at h
        simp only [Except.ok.injEq] at h
        subst h
        rcases List.mem_append.mp hb with hb | hb
        · exact ⟨p, List.mem_cons_self _ _, here, hp, hb⟩
        · obtain ⟨p2, hm, here2, hq, hb2⟩ := ih more hrest b hb
          exact ⟨p2, List.mem_cons_of_mem _ hm, here2, hq, hb2⟩

lemma parsePdfInfo_mem {d : Json} {l : List Block} (h : parsePdfInfo d = .ok l) :
    ∀ b ∈ l, ∃ pdfInfoJ, pyGetD d "pdf_info" (.arr []) = .ok pdfInfoJ ∧
      ∃ ps, pyIter pdfInfoJ = .ok ps ∧
        ∃ p ∈ ps, ∃ here, f1Page p = .ok here ∧ b ∈ here := by
  intro b hb
  unfold parsePdfInfo at h
  cases hpj : pyGetD d "pdf_info" (.arr []) with
  | error e => rw [hpj] at h; simp [Bind.bind, Except.bind] at h
  | ok pdfInfoJ =>
    rw [hpj] at h
    simp only [Bind.bind, Except.bind] at h
    cases hlen : pyLen pdfInfoJ with
    | error e => rw [hlen] at h; simp at h
    | ok n =>
      rw [hlen] at h
      simp only [] at h
      cases hps : pyIter pdfInfoJ with
      | error e => rw [hps] at h; simp at h
      | ok ps =>
        rw [hps] at h
        obtain ⟨p, hm, here, hq, hb2⟩ := f1Pages_mem ps l h b hb
        exact ⟨pdfInfoJ, rfl, ps, hps, p, hm, here, hq, hb2⟩

lemma f3Pages_mem :
    ∀ (ps : List Json) (idx : Nat) (l : List Block), f3Pages ps idx = .ok l →
      ∀ b ∈ l, ∃ pn : Nat, idx + 1 ≤ pn ∧ ∃ blk, f3Block pn blk = .ok (some b) := by
  intro ps
  induction ps with
  | nil =>
    intro idx l h b hb
    simp only [f3Pages, Except.ok.injEq] at h
    subst h
    cases hb
  | cons p rest ih =>
    intro idx l h b hb
    unfold f3Pages at h
    simp only [Bind.bind, Except.bind] at h
    cases p with
    | arr blocks =>
      simp only [] at h
      cases hblocks : f3Blocks (idx + 1) blocks with
      | error e => rw [hblocks] at h; simp at h
      | ok here =>
        rw [hblocks] at h
        simp only [] at h
        cases hrest : f3Pages rest (idx + 1) with
        | error e => rw [hrest] at h; simp at h
        | ok more =>
          rw [hrest] at h
          simp only [Except.ok.injEq] at h
          subst h
          rcases List.mem_append.mp hb with hb | hb
          · obtain ⟨blk, hm, hq⟩ := f3Blocks_mem (idx + 1) blocks here hblocks b hb
            exact ⟨idx + 1, Nat.le_refl _, blk, hq⟩
          · obtain ⟨pn, hpn, blk, hq⟩ := ih (idx + 1) more hrest b hb
            exact ⟨pn, by omega, blk, hq⟩
    | null =>
      simp only [] at h
      cases hrest : f3Pages rest (idx + 1) with
      | error e => rw [hrest] at h; simp at h
      | ok more =>
        rw [hrest] at h
        simp only [Except.ok.injEq] at h
        subst h
        simp only [List.nil_append] at hb
        obtain ⟨pn, hpn, blk, hq⟩ := ih (idx + 1) more hrest b hb
        exact ⟨pn, by omega, blk, hq⟩
    | bool x =>
      simp only [] at h
      cases hrest : f3Pages rest (idx + 1) with
      | error e => rw [hrest] at h; simp at h
      | ok more =>
        rw [hrest] at h
        simp only [Except.ok.injEq] at h
        subst h
        simp only [List.nil_append] at hb
        obtain ⟨pn, hpn, blk, hq⟩ := ih (idx + 1) more hrest b hb
        exact ⟨pn, by omega, blk, hq⟩
    | num x =>
      simp only [] at h
      cases hrest : f3Pages rest (idx + 1) with
      | error e => rw [hrest] at h; simp at h
      | ok more =>
        rw [hrest] at h
        simp only [Except.ok.injEq] at h
        subst h
        simp only [List.nil_append] at hb
        obtain ⟨pn, hpn, blk, hq⟩ := ih (idx + 1) more hrest b hb
        exact ⟨pn, by omega, blk, hq⟩
    | str x =>
      simp only [] at h
      cases hrest : f3Pages rest (idx + 1) with
      | error e => rw [hrest] at h; simp at h
      | ok more =>
        rw [hrest] at h
        simp only [Except.ok.injEq] at h
        subst h
        simp only [List.nil_append] at hb
        obtain ⟨pn, hpn, blk, hq⟩ := ih (idx + 1) more hrest b hb
        exact ⟨pn, by omega, blk, hq⟩
    | obj x =>
      simp only [] at h
      cases hrest : f3Pages rest (idx + 1) with
      | error e => rw [hrest] at h; simp at h
      | ok more =>
        rw [hrest] at h
        simp only [Except.ok.injEq] at h
        subst h
        simp only [List.nil_append] at hb
        obtain ⟨pn, hpn, blk, hq⟩ := ih (idx + 1) more hrest b hb
        exact ⟨pn, by omega, blk, hq⟩

lemma isStrEq_eq_str {x : Json} {s : String} (h : x.isStrEq s = true) : x = .str s := by
  cases x <;> simp [Json.isStrEq] at h
  simp [h]

lemma lookupField_none_any {kvs : List (String × Json)} {key : String}
    (h : lookupField kvs key = none) :
    (kvs.any fun kv => kv.1 == key) = false := by
  induction kvs with
  | nil => rfl
  | cons kv rest ih =>
    simp only [lookupField] at h
    by_cases hk : kv.1 = key
    · rw [if_pos hk] at h
      cases h
    · rw [if_neg hk] at h
      simp [List.any_cons, hk, ih h]

lemma pyContains_pdfinfo_truthy {d : Json}
    (h : pyContains "pdf_info" d = .ok true) : d.truthy = true := by
  cases d with
  | null => simp [pyContains] at h
  | bool b => simp [pyContains] at h
  | num n => simp [pyContains] at h
  | str s =>
    simp only [pyContains, Except.ok.injEq] at h
    cases s with
    | mk data =>
      cases data with
      | nil => simp [strIncludes, String.toList] at h
      | cons c cs => simp [Json.truthy, String.ext_iff]
  | arr xs =>
    simp only [pyContains, Except.ok.injEq] at h
    cases xs with
    | nil => simp at h
    | cons x rest => simp [Json.truthy]
  | obj kvs =>
    simp only [pyContains, Except.ok.injEq] at h
    cases kvs with
    | nil => simp at h
    | cons kv rest => simp [Json.truthy]

lemma parseCore_pdfinfo {d : Json} (h : pyContains "pdf_info" d = .ok true) :
    parseCore d = parsePdfInfo d := by
  have htr := pyContains_pdfinfo_truthy h
  unfold parseCore
  rw [htr, h]
  simp [Bind.bind, Except.bind]

lemma parseCore_arr_noPdf {first : Json} {rest : List Json}
    (h : ((first :: rest).any fun x => x.isStrEq "pdf_info") = false) :
    parseCore (.arr (first :: rest))
      = (if isFlatItem first then f2Items (first :: rest)
         else match first with
           | .arr _ => f3Pages (first :: rest) 0
           | _ => parsePages (.arr (first :: rest))) := by
  unfold parseCore
  simp only [Json.truthy, List.isEmpty_cons, Bool.not_false, if_true, Bool.not_true,
    Bool.false_eq_true, if_false, pyContains, Bind.bind, Except.bind, h]
  by_cases hf : isFlatItem first = true
  · simp [hf]
  · simp only [hf, Bool.false_eq_true, if_false]
    cases first <;> rfl

lemma parseCore_obj_pages {kvs : List (String × Json)}
    (h : lookupField kvs "pdf_info" = none) :
    parseCore (.obj kvs) = parsePages (.obj kvs) := by
  cases kvs with
  | nil => rfl
  | cons kv rest =>
    unfold parseCore
    have hany := lookupField_none_any h
    simp only [Json.truthy, List.isEmpty_cons, Bool.not_false, if_true, Bool.not_true,
      Bool.false_eq_true, if_false, pyContains, Bind.bind, Except.bind, hany]

lemma parseCore_cases {d : Json} {l : List Block} (h : parseCore d = .ok l) :
    l = [] ∨ parsePdfInfo d = .ok l ∨
    (∃ items, d = .arr items ∧ f2Items items = .ok l) ∨
    (∃ items, d = .arr items ∧ f3Pages items 0 = .ok l) ∨
    parsePages d = .ok l := by
  unfold parseCore at h
  by_cases htr : d.truthy = true
  · rw [htr] at h
    simp only [Bool.not_true, Bool.false_eq_true, if_false, Bind.bind, Except.bind] at h
    cases hc : pyContains "pdf_info" d with
    | error e => rw [hc] at h; simp at h
    | ok tv =>
      rw [hc] at h
      cases tv with
      | true =>
        simp only [if_true] at h
        exact Or.inr (Or.inl h)
      | false =>
        simp only [Bool.false_eq_true, if_false] at h
        cases d with
        | arr items =>
          cases items with
          | nil => simp [Json.truthy] at htr
          | cons first rest =>
            simp only [] at h
            by_cases hf : isFlatItem first = true
            · rw [if_pos hf] at h
              exact Or.inr (Or.inr (Or.inl ⟨first :: rest, rfl, h⟩))
            · rw [if_neg hf] at h
              cases first with
              | arr a =>
                exact Or.inr (Or.inr (Or.inr (Or.inl ⟨Json.arr a :: rest, rfl, h⟩)))
              | null => exact Or.inr (Or.inr (Or.inr (Or.inr h)))
              | bool x => exact Or.inr (Or.inr (Or.inr (Or.inr h)))
              | num x => exact Or.inr (Or.inr (Or.inr (Or.inr h)))
              | str x => exact Or.inr (Or.inr (Or.inr (Or.inr h)))
              | obj x => exact Or.inr (Or.inr (Or.inr (Or.inr h)))
        | null => exact Or.inr (Or.inr (Or.inr (Or.inr h)))
        | bool x => exact Or.inr (Or.inr (Or.inr (Or.inr h)))
        | num x => exact Or.inr (Or.inr (Or.inr (Or.inr h)))
        | str x => exact Or.inr (Or.inr (Or.inr (Or.inr h)))
        | obj x => exact Or.inr (Or.inr (Or.inr (Or.inr h)))
  · simp only [Bool.not_eq_true] at htr
    rw [htr] at h
    simp only [Bool.not_false, if_true, Except.ok.injEq] at h
    exact Or.inl h.symm

lemma parsePdfInfo_props {d : Json} {l : List Block} (h : parsePdfInfo d = .ok l) :
    ∀ b ∈ l, (∃ n, pyLen b.bbox = .ok n ∧ 4 ≤ n) ∧
      (b.type.isStrEq "text" || b.type.isStrEq "title") = true ∧
      (∃ m : Int, b.page = .num m) ∧ b.text ≠ "" ∧ pyTrim b.text = b.text := by
  intro b hb
  obtain ⟨pdfInfoJ, _, ps, _, p, _, here, hpage, hb2⟩ := parsePdfInfo_mem h b hb
  obtain ⟨pidx, _, pn, hpn, blk, hq⟩ := f1Page_mem hpage b hb2
  obtain ⟨hpg, hbb, hty, htx, htrim⟩ := f1Block_shape hq
  obtain ⟨m, hm⟩ := pyAdd1_num hpn
  exact ⟨hbb, hty, ⟨m, by rw [hpg, hm]⟩, htx, htrim⟩

lemma f2Items_props {items : List Json} {l : List Block} (h : f2Items items = .ok l) :
    ∀ b ∈ l, (∃ n, pyLen b.bbox = .ok n ∧ 4 ≤ n) ∧
      (∃ m : Int, b.page = .num m) ∧ b.text ≠ "" ∧ pyTrim b.text = b.text := by
  intro b hb
  obtain ⟨blk, _, hq⟩ := f2Items_mem items l h b hb
  exact f2Item_shape hq

lemma f3Pages_props {items : List Json} {idx : Nat} {l : List Block}
    (h : f3Pages items idx = .ok l) :
    ∀ b ∈ l, (∃ n, pyLen b.bbox = .ok n ∧ 4 ≤ n) ∧
      (∃ m : Nat, 1 ≤ m ∧ b.page = .num (Int.ofNat m)) ∧
      b.text ≠ "" ∧ pyTrim b.text = b.text := by
  intro b hb
  obtain ⟨pn, hpn, blk, hq⟩ := f3Pages_mem items idx l h b hb
  obtain ⟨hpg, hbb, htx, htrim⟩ := f3Block_shape hq
  exact ⟨hbb, ⟨pn, by omega, hpg⟩, htx, htrim⟩

lemma parsePages_props {d : Json} {l : List Block} (h : parsePages d = .ok l) :
    ∀ b ∈ l, (b.type.isStrEq "text" || b.type.isStrEq "title") = true ∧
      b.text ≠ "" ∧ pyTrim b.text = b.text := by
  intro b hb
  obtain ⟨pagesJ, _, ps, _, p, _, here, hpage, hb2⟩ := parsePages_mem h b hb
  obtain ⟨pn, _, blocksJ, _, bs, _, blk, _, hq⟩ := f4Page_mem hpage b hb2
  obtain ⟨_, _, hty, htx, htrim⟩ := f4Block_shape hq
  exact ⟨hty, htx, htrim⟩

lemma parse_text (d : Json) :
    ∀ b ∈ parse_mineru_layout_from_data d, b.text ≠ "" ∧ pyTrim b.text = b.text := by
  intro b hb
  unfold parse_mineru_layout_from_data at hb
  cases hcore : parseCore d with
  | error e => rw [hcore] at hb; simp at hb
  | ok l =>
    rw [hcore] at hb
    simp only [] at hb
    rcases parseCore_cases hcore with h0 | h1 | ⟨items, hd, h2⟩ | ⟨items, hd, h3⟩ | h4
    · subst h0; cases hb
    · obtain ⟨_, _, _, htx, htrim⟩ := parsePdfInfo_props h1 b hb
      exact ⟨htx, htrim⟩
    · obtain ⟨_, _, htx, htrim⟩ := f2Items_props h2 b hb
      exact ⟨htx, htrim⟩
    · obtain ⟨_, _, htx, htrim⟩ := f3Pages_props h3 b hb
      exact ⟨htx, htrim⟩
    · obtain ⟨_, htx, htrim⟩ := parsePages_props h4 b hb
      exact ⟨htx, htrim⟩

/-- C1 (amended): every block emitted by the layout normalizer has non-empty,
already-stripped text; blocks from the pdf_info shape additionally have a bbox
of length at least 4, a type equal to text or title, and a numeric page; blocks
from the flat content-list shape have a bbox of length at least 4 and a numeric
page (the source page_idx plus one, which can be below 1 for negative page_idx
values); blocks from the two-level model shape have a bbox of length at least 4
and a numeric page at least 1; blocks from the legacy pages shape have a type
equal to text or title. In the content-list and model shapes the type is taken
from the source item and is not restricted to text or title. -/
theorem C1_amended :
    (∀ d : Json, ∀ b ∈ parse_mineru_layout_from_data d,
      b.text ≠ "" ∧ pyTrim b.text = b.text) ∧
    (∀ d : Json, pyContains "pdf_info" d = .ok true →
      ∀ b ∈ parse_mineru_layout_from_data d,
        (∃ n, pyLen b.bbox = .ok n ∧ 4 ≤ n) ∧
        (b.type.isStrEq "text" || b.type.isStrEq "title") = true ∧
        (∃ m : Int, b.page = .num m)) ∧
    (∀ (first : Json) (rest : List Json),
      pyContains "pdf_info" (.arr (first :: rest)) = .ok false →
      isFlatItem first = true →
      ∀ b ∈ parse_mineru_layout_from_data (.arr (first :: rest)),
        (∃ n, pyLen b.bbox = .ok n ∧ 4 ≤ n) ∧ (∃ m : Int, b.page = .num m)) ∧
    (∀ (a : List Json) (rest : List Json),
      pyContains "pdf_info" (.arr (.arr a :: rest)) = .ok false →
      ∀ b ∈ parse_mineru_layout_from_data (.arr (.arr a :: rest)),
        (∃ n, pyLen b.bbox = .ok n ∧ 4 ≤ n) ∧
        (∃ m : Nat, 1 ≤ m ∧ b.page = .num (Int.ofNat m))) ∧
    (∀ kvs : List (String × Json), lookupField kvs "pdf_info" = none →
      ∀ b ∈ parse_mineru_layout_from_data (.obj kvs),
        (b.type.isStrEq "text" || b.type.isStrEq "title") = true) := by
  refine ⟨parse_text, ?_, ?_, ?_, ?_⟩
  · intro d hpdf b hb
    unfold parse_mineru_layout_from_data at hb
    rw [parseCore_pdfinfo hpdf] at hb
    cases hres : parsePdfInfo d with
    | error e => rw [hres] at hb; simp at hb
    | ok l =>
      rw [hres] at hb
      simp only [] at hb
      obtain ⟨hbb, hty, hpg, _, _⟩ := parsePdfInfo_props hres b hb
      exact ⟨hbb, hty, hpg⟩
  · intro first rest hnp hf b hb
    have hany : ((first :: rest).any fun x => x.isStrEq "pdf_info") = false := by
      simp only [pyContains, Except.ok.injEq] at hnp
      exact hnp
    unfold parse_mineru_layout_from_data at hb
    rw [parseCore_arr_noPdf hany, if_pos hf] at hb
    cases hres : f2Items (first :: rest) with
    | error e => rw [hres] at hb; simp at hb
    | ok l =>
      rw [hres] at hb
      simp only [] at hb
      obtain ⟨hbb, hpg, _, _⟩ := f2Items_props hres b hb
      exact ⟨hbb, hpg⟩
  · intro a rest hnp b hb
    have hany : ((Json.arr a :: rest).any fun x => x.isStrEq "pdf_info") = false := by
      simp only [pyContains, Except.ok.injEq] at hnp
      exact hnp
    unfold parse_mineru_layout_from_data at hb
    rw [parseCore_arr_noPdf hany] at hb
    simp only [isFlatItem, Bool.false_eq_true, if_false] at hb
    cases hres : f3Pages (Json.arr a :: rest) 0 with
    | error e => rw [hres] at hb; simp at hb
    | ok l =>
      rw [hres] at hb
      simp only [] at hb
      obtain ⟨hbb, hpg, _, _⟩ := f3Pages_props hres b hb
      exact ⟨hbb, hpg⟩
  · intro kvs hlk b hb
    unfold parse_mineru_layout_from_data at hb
    rw [parseCore_obj_pages hlk] at hb
    cases hres : parsePages (Json.obj kvs) with
    | error e => rw [hres] at hb; simp at hb
    | ok l =>
      rw [hres] at hb
      simp only [] at hb
      obtain ⟨hty, _, _⟩ := parsePages_props hres b hb
      exact hty

/-- C1 (counterexample): the claim fails as stated. A content-list item with
type image is emitted with type image, not discarded; a content-list item with
page_idx -1 is emitted with page 0, below 1; and a legacy block with a truthy
bbox of length 1 is emitted with that bbox, neither length 4 nor the zero
rectangle. -/
theorem C1_counterexample :
    (parse_mineru_layout_from_data x1
      = [{ page := .num 1, bbox := .arr [.num 1, .num 2, .num 3, .num 4],
           text := "x", type := .str "image" }] ∧
      Json.str "image" ≠ .str "text" ∧ Json.str "image" ≠ .str "title") ∧
    (parse_mineru_layout_from_data x2
      = [{ page := .num 0, bbox := .arr [.num 1, .num 2, .num 3, .num 4],
           text := "x", type := .str "text" }] ∧
      ¬ (1 : Int) ≤ 0) ∧
    (parse_mineru_layout_from_data x3
      = [{ page := .num 1, bbox := .arr [.num 1], text := "hi",
           type := .str "text" }] ∧
      pyLen (.arr [.num 1]) = .ok 1 ∧ ¬ 4 ≤ 1 ∧
      Json.arr [.num 1] ≠ .arr [.num 0, .num 0, .num 0, .num 0]) := by
  refine ⟨⟨rfl, by simp, by simp⟩, ⟨rfl, by norm_num⟩, ⟨rfl, rfl, by norm_num, by simp⟩⟩

/-- C1 witness: the amended theorem applied to the concrete pdf_info input of
the end-to-end scenario. -/
theorem C1_amended_witness :
    pyContains "pdf_info" c10Input = .ok true ∧
    (∀ b ∈ parse_mineru_layout_from_data c10Input,
      (∃ n, pyLen b.bbox = .ok n ∧ 4 ≤ n) ∧
      (b.type.isStrEq "text" || b.type.isStrEq "title") = true ∧
      (∃ m : Int, b.page = .num m)) :=
  ⟨rfl, C1_amended.2.1 c10Input rfl⟩

/-- C4 (amended): in the legacy pages shape, each emitted block's page is
resolved by first-truthy-wins among the fields page_no, page and pageNo, else
page_idx + 1, and its bbox by first-truthy-wins among bbox and bbox_coords,
else the zero rectangle; a present but falsy field (0, empty string, empty
list) is skipped in favour of the next candidate. -/
theorem C4_amended :
    (∀ kvs : List (String × Json), lookupField kvs "pdf_info" = none →
      parse_mineru_layout_from_data (.obj kvs)
        = (match parsePages (.obj kvs) with | .ok l => l | .error _ => [])) ∧
    (∀ (ps : List Json) (l : List Block), f4Pages ps = .ok l → ∀ b ∈ l,
      ∃ p ∈ ps, resolvePageNo p = .ok b.page ∧
        ∃ blocksJ, pyGetD p "blocks" (.arr []) = .ok blocksJ ∧
          ∃ bs, pyIter blocksJ = .ok bs ∧
            ∃ blk ∈ bs, resolveBbox blk = .ok b.bbox) := by
  constructor
  · intro kvs h
    unfold parse_mineru_layout_from_data
    rw [parseCore_obj_pages h]
  · intro ps l h b hb
    obtain ⟨p, hm, here, hpage, hb2⟩ := f4Pages_mem ps l h b hb
    obtain ⟨pn, hpn, blocksJ, hbj, bs, hbs, blk, hbm, hq⟩ := f4Page_mem hpage b hb2
    obtain ⟨hpg, hbb, _, _, _⟩ := f4Block_shape hq
    refine ⟨p, hm, ?_, blocksJ, hbj, bs, hbs, blk, hbm, hbb⟩
    rw [hpn, hpg]

/-- C4 (counterexample): the claim's first-present-wins resolution fails on
the code. A page with page_no=0 and page=2 yields page 2, not the present
page_no value 0; a block with bbox=[] and bbox_coords=[9,9,9,9] yields
[9,9,9,9], not the present empty bbox. -/
theorem C4_counterexample :
    (parse_mineru_layout_from_data x4
       = [{ page := .num 2, bbox := .arr [.num 1, .num 2, .num 3, .num 4],
            text := "hi", type := .str "text" }] ∧
     specPresentPageNo c4Page = .ok (.num 0) ∧ Json.num 2 ≠ .num 0) ∧
    (parse_mineru_layout_from_data x5
       = [{ page := .num 3, bbox := .arr [.num 9, .num 9, .num 9, .num 9],
            text := "hi", type := .str "text" }] ∧
     specPresentBbox c4Block = .ok (.arr []) ∧
     Json.arr [.num 9, .num 9, .num 9, .num 9] ≠ .arr []) :=
  ⟨⟨rfl, rfl, by simp⟩, ⟨rfl, rfl, by simp⟩⟩

/-- C4 witness: the amended theorem applied to the concrete legacy page used
in the counterexample. -/
theorem C4_amended_witness :
    lookupField [("pages", Json.arr [c4Page])] "pdf_info" = none ∧
    (parse_mineru_layout_from_data (.obj [("pages", .arr [c4Page])])
      = (match parsePages (.obj [("pages", .arr [c4Page])]) with
         | .ok l => l | .error _ => [])) ∧
    f4Pages [c4Page] = .ok
      [{ page := .num 2, bbox := .arr [.num 1, .num 2, .num 3, .num 4],
         text := "hi", type := .str "text" }] ∧
    (∀ b ∈ [({ page := .num 2, bbox := .arr [.num 1, .num 2, .num 3, .num 4],
               text := "hi", type := .str "text" } : Block)],
      ∃ p ∈ [c4Page], resolvePageNo p = .ok b.page ∧
        ∃ blocksJ, pyGetD p "blocks" (.arr []) = .ok blocksJ ∧
          ∃ bs, pyIter blocksJ = .ok bs ∧
            ∃ blk ∈ bs, resolveBbox blk = .ok b.bbox) :=
  ⟨rfl, C4_amended.1 [("pages", Json.arr [c4Page])] rfl, rfl,
   C4_amended.2 [c4Page] _ rfl⟩

lemma f2Items_err_of_mem_str {s : String} :
    ∀ items : List Json, Json.str s ∈ items → f2Items items = .error () := by
  intro items
  induction items with
  | nil => intro h; cases h
  | cons b rest ih =>
    intro h
    rcases List.mem_cons.mp h with heq | hmem
    · rw [← heq]
      rfl
    · unfold f2Items
      cases hblk : f2Item b with
      | error e => rfl
      | ok ob => simp [Bind.bind, Except.bind, ih hmem]

/-- C7: a non-empty top-level list whose first element is an object with both
text and page_idx keys resolves to the flat-item extractor, and only a list
failing that check (its first element being itself a list) falls through to
the page-grid extractor; the flat-item check is performed before the
nested-sequence check. -/
theorem C7_detection_priority :
    (∀ (first : Json) (rest : List Json), isFlatItem first = true →
      parse_mineru_layout_from_data (.arr (first :: rest))
        = (match f2Items (first :: rest) with | .ok l => l | .error _ => [])) ∧
    (∀ (a : List Json) (rest : List Json),
      pyContains "pdf_info" (.arr (.arr a :: rest)) = .ok false →
      parse_mineru_layout_from_data (.arr (.arr a :: rest))
        = (match f3Pages (.arr a :: rest) 0 with | .ok l => l | .error _ => [])) := by
  constructor
  · intro first rest hf
    by_cases hany : ((first :: rest).any fun x => x.isStrEq "pdf_info") = true
    · have hc : pyContains "pdf_info" (.arr (first :: rest)) = .ok true := by
        simp only [pyContains, Except.ok.injEq]
        exact hany
      unfold parse_mineru_layout_from_data
      rw [parseCore_pdfinfo hc]
      obtain ⟨x, hx, hsx⟩ := List.any_eq_true.mp hany
      have hxs : x = .str "pdf_info" := isStrEq_eq_str hsx
      subst hxs
      rw [f2Items_err_of_mem_str (first :: rest) hx]
      rfl
    · have hany2 : ((first :: rest).any fun x => x.isStrEq "pdf_info") = false := by
        cases hval : ((first :: rest).any fun x => x.isStrEq "pdf_info") with
        | true => exact absurd hval hany
        | false => rfl
      unfold parse_mineru_layout_from_data
      rw [parseCore_arr_noPdf hany2, if_pos hf]
  · intro a rest hnp
    have hany : ((Json.arr a :: rest).any fun x => x.isStrEq "pdf_info") = false := by
      simp only [pyContains, Except.ok.injEq] at hnp
      exact hnp
    unfold parse_mineru_layout_from_data
    rw [parseCore_arr_noPdf hany]
    simp only [isFlatItem, Bool.false_eq_true, if_false]

/-- C7 witness: the flat-item clause applied to a concrete one-element
list. -/
theorem C7_witness :
    isFlatItem (.obj [("text", .str "x"), ("page_idx", .num 0),
      ("bbox", .arr [.num 1, .num 2, .num 3, .num 4]),
      ("type", .str "image")]) = true ∧
    parse_mineru_layout_from_data
        (.arr [.obj [("text", .str "x"), ("page_idx", .num 0),
          ("bbox", .arr [.num 1, .num 2, .num 3, .num 4]),
          ("type", .str "image")]])
      = (match f2Items [.obj [("text", .str "x"), ("page_idx", .num 0),
          ("bbox", .arr [.num 1, .num 2, .num 3, .num 4]),
          ("type", .str "image")]] with
         | .ok l => l | .error _ => []) :=
  ⟨rfl, C7_detection_priority.1 _ [] rfl⟩

/-- C5 witness: the miss-then-hit part applied to a concrete configuration,
remote endpoint and times 0 and 100. -/
theorem C5_witness :
    pyTrim "Hello" ≠ "" ∧
    cacheGet ([] : Cache) (get_translation_cache_key (fun s => s) "Hello" "zh") 0 = none ∧
    (100 : Nat) < 0 + 86400 ∧
    (∃ (v : String) (call : RemoteCall),
      translate_with_llm (fun s => s) cfgQ remOk true [] 0 "Hello" "zh" none
        = (.ok v,
           cacheSet [] (get_translation_cache_key (fun s => s) "Hello" "zh") v 0 86400,
           [call]) ∧
      translate_with_llm (fun s => s) cfgQ remOk true
          (cacheSet [] (get_translation_cache_key (fun s => s) "Hello" "zh") v 0 86400)
          100 "Hello" "zh" none
        = (.ok v,
           cacheSet [] (get_translation_cache_key (fun s => s) "Hello" "zh") v 0 86400,
           [])) := by
  refine ⟨by decide, rfl, by norm_num, ?_⟩
  exact (C5_cache_roundtrip (fun s => s) cfgQ remOk [] 0 100 "Hello" "zh" none).2
    (by decide) rfl (Or.inl (by decide))
    (fun c => ⟨" 你好 ", rfl, by decide⟩) (by norm_num)

/-- C6 witness: the collision and the cross-pair cache hit at a concrete
cache state. -/
theorem C6_witness :
    get_translation_cache_key (fun s => s) "a_b" "c"
      = get_translation_cache_key (fun s => s) "a" "b_c" ∧
    ("cached" : String) ≠ "" ∧
    cacheGet [(get_translation_cache_key (fun s => s) "a_b" "c", "cached", 10)]
      (get_translation_cache_key (fun s => s) "a_b" "c") 5 = some "cached" ∧
    translate_with_llm (fun s => s) cfgQ remOk true
        [(get_translation_cache_key (fun s => s) "a_b" "c", "cached", 10)] 5 "a" "b_c" none
      = (.ok "cached",
         [(get_translation_cache_key (fun s => s) "a_b" "c", "cached", 10)], []) := by
  refine ⟨(C6_cache_key_collision (fun s => s)).2.1, by decide, rfl, ?_⟩
  exact (C6_cache_key_collision (fun s => s)).2.2 cfgQ remOk _ 5 none "cached"
    (by decide) rfl

/-- C8 witness: the primary-credential clause applied to a concrete
configuration with the Qwen key set. -/
theorem C8_witness :
    pyTrim "Hello" ≠ "" ∧ cfgQ.qwen_api_key ≠ "" ∧
    (∃ call : RemoteCall,
      (translate_with_llm (fun s => s) cfgQ remOk false [] 0 "Hello" "zh" none).2.2
        = [call] ∧
      call.api_key = cfgQ.qwen_api_key ∧ call.base_url = cfgQ.qwen_base_url ∧
      call.model = orDefault none cfgQ.qwen_model ∧
      call.prompt = buildPrompt "zh" "Hello") := by
  refine ⟨by decide, by decide, ?_⟩
  exact (C8_credential_resolution (fun s => s) cfgQ remOk false [] 0 "Hello" "zh"
    none (by decide) rfl).1 (by decide)
